import Mathlib

/-
Verification of the profile-attachment core of BOLT's YAML profile reader
(bolt/lib/Profile/YAMLProfileReader.cpp), as a shallow embedding in Lean.

The profile document, the reader's matching tables, and the propagation
over a matched binary function are translated from the source.  Facilities
that the reader consumes from elsewhere in the project (BinaryContext,
BinaryBasicBlock, MCPlusBuilder annotations, matchProfileToFunction from
the reader's header) are modelled from the specification; every such
definition carries a doc comment starting with "Modelled from the spec:".
Machine integers are modelled as Nat: all the counters involved are
uint64_t values that only ever grow by small increments, so overflow is
not reachable on the inputs considered and is not modelled.
-/

namespace BoltProfile

/-- Successor entry of a profiled basic block (yaml::bolt::SuccessorInfo):
target block index, taken count, mispredict count. -/
structure SuccessorInfo where
  index : Nat
  count : Nat
  mispreds : Nat
  deriving DecidableEq, Repr, Inhabited

/-- Call-site entry of a profiled basic block (yaml::bolt::CallSiteInfo). -/
structure CallSiteInfo where
  destId : Nat
  entryDiscriminator : Nat
  offset : Nat
  count : Nat
  mispreds : Nat
  deriving DecidableEq, Repr, Inhabited

/-- Profiled basic block (yaml::bolt::BinaryBasicBlockProfile). -/
structure BinaryBasicBlockProfile where
  index : Nat
  execCount : Nat
  eventCount : Nat
  callSites : List CallSiteInfo
  successors : List SuccessorInfo
  deriving DecidableEq, Repr, Inhabited

/-- Profiled function record (yaml::bolt::BinaryFunctionProfile).  The
mutable Used flag is kept outside the record, in the reader state, keyed
by the record's position in the Functions sequence. -/
structure BinaryFunctionProfile where
  id : Nat
  name : String
  hash : Nat
  numBasicBlocks : Nat
  execCount : Nat
  blocks : List BinaryBasicBlockProfile
  deriving DecidableEq, Repr, Inhabited

/-- Hash function identifier from the profile header. -/
inductive HashFunctionKind
  | stdHash
  | xxh3
  deriving DecidableEq, Repr, Inhabited

/-- Profile header (yaml::bolt::BinaryProfileHeader). -/
structure BinaryProfileHeader where
  version : Nat
  flags : Nat
  eventNames : String
  hashFunction : HashFunctionKind
  isDFSOrder : Bool
  deriving DecidableEq, Repr, Inhabited

/-- The parsed profile document (yaml::bolt::BinaryProfile). -/
structure BinaryProfile where
  header : BinaryProfileHeader
  functions : List BinaryFunctionProfile
  deriving DecidableEq, Repr, Inhabited

/-- Modelled from the spec: BinaryFunction::PF_SAMPLE is a bit of the
profile flags word; PF_LBR is bit 0 and PF_SAMPLE is bit 1.  The header
flag test `Flags & PF_SAMPLE` is modelled as testing bit 1. -/
def isSampleProfile (hdr : BinaryProfileHeader) : Bool :=
  hdr.flags.testBit 1

/-- Modelled from the spec: an MCSymbol naming an entry point of a binary
function, obtained from BinaryFunction::getSymbolForEntryID; identified by
the function's id together with the entry discriminator. -/
abbrev EntrySymbol := Nat × Nat

/-- One entry of the "CallProfile" list annotation
(bolt::IndirectCallProfile): callee symbol, count, mispredict count. -/
structure IndirectCallProfileEntry where
  symbol : Option EntrySymbol
  count : Nat
  mispreds : Nat
  deriving DecidableEq, Repr, Inhabited

/-- Modelled from the spec: the value stored under one key of an
instruction's annotation bag — either a scalar count or the "CallProfile"
list of indirect-call profile entries. -/
inductive AnnotVal
  | scalar (n : Nat)
  | callProf (l : List IndirectCallProfileEntry)
  deriving DecidableEq, Repr, Inhabited

/-- Modelled from the spec: the slice of an MCInst that the reader
consumes — the MCPlusBuilder capability predicates and the key-value
annotation bag. -/
structure MCInstModel where
  isCall : Bool
  isIndirectCall : Bool
  isIndirectBranch : Bool
  isCondTailCall : Bool
  annotations : List (String × AnnotVal)
  deriving DecidableEq, Repr, Inhabited

/-- Modelled from the spec: the slice of a BinaryBasicBlock the reader
consumes.  Successors are identified by block index into the owning
function's block list; branchInfo is aligned with succs and carries
(Count, MispredictedCount); execCount = none models COUNT_NO_PROFILE. -/
structure BinaryBasicBlockModel where
  succs : List Nat
  branchInfo : List (Nat × Nat)
  execCount : Option Nat
  entryPoint : Bool
  numNonPseudos : Nat
  numCalls : Nat
  originalSize : Nat
  inputOffset : Nat
  deriving DecidableEq, Repr, Inhabited

/-- An element of BinaryFunction::getAllCallSites(): callee symbol, count,
mispredict count, offset. -/
structure FuncCallSite where
  symbol : Option EntrySymbol
  count : Nat
  mispreds : Nat
  offset : Nat
  deriving DecidableEq, Repr, Inhabited

/-- Modelled from the spec: the slice of a BinaryFunction the reader
consumes and mutates.  storedHash is the hash held by getHash() (0 when
never computed); trueHash is the value computeHash would store for the
run's hash function and ordering; execCount = none models
COUNT_NO_PROFILE; profiledFlags = some f models markProfiled(f) having
been called; insns maps instruction input offsets to instructions
(getInstructionAtOffset). -/
structure BinaryFunctionModel where
  names : List String
  demangledName : String
  blocks : List BinaryBasicBlockModel
  dfsOrder : List Nat
  insns : List (Nat × MCInstModel)
  storedHash : Nat
  trueHash : Nat
  execCount : Option Nat
  rawBranchCount : Nat
  callSites : List FuncCallSite
  profiledFlags : Option Nat
  ignored : Bool
  deriving DecidableEq, Repr, Inhabited

/-- Modelled from the spec: BinaryFunction::hasProfile — an execution
count has been assigned (is not COUNT_NO_PROFILE). -/
def hasProfileFn (bf : BinaryFunctionModel) : Bool :=
  bf.execCount.isSome

/-- Modelled from the spec: the slice of the BinaryContext the reader
consumes.  Binary functions are identified by their position in
functions; nameToFun models getBinaryDataByName followed by
getFunctionForSymbol; symbolNames models iteration over
SymbolToFunctionMap as (symbol name, function id) pairs. -/
structure BinaryContextModel where
  functions : List BinaryFunctionModel
  nameToFun : List (String × Nat)
  symbolNames : List (String × Nat)
  numStaleFuncsWithEqualBlockCount : Nat
  numUnusedProfiledObjects : Nat
  deriving DecidableEq, Repr, Inhabited

/-- The command-line options the reader consults. -/
structure Opts where
  ignoreHash : Bool
  matchProfileWithFunctionHash : Bool
  inferStaleProfile : Bool
  lite : Bool
  nameSimilarityFunctionMatchingThreshold : Nat
  deriving DecidableEq, Repr, Inhabited

/-- Modelled from the spec: the external helpers the reader calls —
NameResolver::restore composed with demangling, declaration-context
extraction by the partial demangler, string edit distance, LTO common
name extraction, and the stale-profile inference hook (a black box whose
boolean result becomes the new per-function verdict). -/
structure Oracles where
  demangleName : String → String
  deriveNameSpace : String → String
  editDistance : String → String → Nat
  getLTOCommonName : String → Option String
  inferStale : BinaryFunctionModel → BinaryFunctionProfile → Bool

def getFuncD (bc : BinaryContextModel) (i : Nat) : BinaryFunctionModel :=
  bc.functions.getD i default

def setFunc (bc : BinaryContextModel) (i : Nat) (f : BinaryFunctionModel) :
    BinaryContextModel :=
  { bc with functions := bc.functions.set i f }

def getBlockD (bf : BinaryFunctionModel) (i : Nat) : BinaryBasicBlockModel :=
  bf.blocks.getD i default

def setBlock (bf : BinaryFunctionModel) (i : Nat) (b : BinaryBasicBlockModel) :
    BinaryFunctionModel :=
  { bf with blocks := bf.blocks.set i b }

def setBlockExec (bf : BinaryFunctionModel) (i : Nat) (v : Option Nat) :
    BinaryFunctionModel :=
  setBlock bf i { getBlockD bf i with execCount := v }

/-- Lookup of an instruction by input offset in the modelled offset map. -/
def findInsn (l : List (Nat × MCInstModel)) (off : Nat) : Option MCInstModel :=
  (l.find? (fun p => p.1 == off)).map (fun p => p.2)

/-- In-place update of the instruction stored at an offset. -/
def updateInsns (l : List (Nat × MCInstModel)) (off : Nat)
    (f : MCInstModel → MCInstModel) : List (Nat × MCInstModel) :=
  l.map (fun p => if p.1 == off then (p.1, f p.2) else p)

/-- BinaryFunction::getInstructionAtOffset, over the modelled offset map. -/
def instructionAtOffset (bf : BinaryFunctionModel) (off : Nat) :
    Option MCInstModel :=
  findInsn bf.insns off

def setInstructionAtOffset (bf : BinaryFunctionModel) (off : Nat)
    (f : MCInstModel → MCInstModel) : BinaryFunctionModel :=
  { bf with insns := updateInsns bf.insns off f }

/-- MCPlusBuilder::hasAnnotation / lookup of an annotation by name. -/
def findAnnot (insn : MCInstModel) (name : String) : Option AnnotVal :=
  insn.annotations.lookup name

/-- MCPlusBuilder::addAnnotation behind the reader's setAnnotation lambda:
a scalar annotation already present is left unchanged and a warning is
reported (second component true); otherwise the scalar is added. -/
def setAnnotationScalar (insn : MCInstModel) (name : String) (v : Nat) :
    MCInstModel × Bool :=
  if (findAnnot insn name).isSome then
    (insn, true)
  else
    ({ insn with annotations := insn.annotations ++ [(name, AnnotVal.scalar v)] }, false)

def replaceAnnot (anns : List (String × AnnotVal)) (name : String)
    (v : AnnotVal) : List (String × AnnotVal) :=
  anns.map (fun p => if p.1 == name then (p.1, v) else p)

/-- MCPlusBuilder::getOrCreateAnnotationAs<IndirectCallSiteProfile> for
"CallProfile", followed by emplace_back: the list annotation is created on
first touch and the entry appended.  A scalar already stored under
"CallProfile" would trip an assertion in the C++ accessor; that unreachable
case is modelled as a no-op. -/
def addToCallProfile (insn : MCInstModel) (e : IndirectCallProfileEntry) :
    MCInstModel :=
  match findAnnot insn "CallProfile" with
  | some (AnnotVal.callProf l) =>
    { insn with annotations := replaceAnnot insn.annotations "CallProfile" (AnnotVal.callProf (l ++ [e])) }
  | some (AnnotVal.scalar _) => insn
  | none =>
    { insn with annotations := insn.annotations ++ [("CallProfile", AnnotVal.callProf [e])] }

/-- Modelled from the spec: BinaryBasicBlock::getBranchInfo(Succ) resolves
to the branch-info slot aligned with the first successor equal to Succ;
this reads that slot's (Count, MispredictedCount). -/
def getBranchCounts (bf : BinaryFunctionModel) (fromIdx toIdx : Nat) :
    Nat × Nat :=
  let bb := getBlockD bf fromIdx
  bb.branchInfo.getD (bb.succs.indexOf toIdx) (0, 0)

/-- Adding (c, m) onto the branch info of the edge fromIdx → toIdx, the
effect of `BI.Count += ...; BI.MispredictedCount += ...` through
getBranchInfo. -/
def addBranchInfo (bf : BinaryFunctionModel) (fromIdx toIdx c m : Nat) :
    BinaryFunctionModel :=
  let bb := getBlockD bf fromIdx
  let pos := bb.succs.indexOf toIdx
  let bi := bb.branchInfo.getD pos (0, 0)
  setBlock bf fromIdx { bb with branchInfo := bb.branchInfo.set pos (bi.1 + c, bi.2 + m) }

/-- Modelled from the spec: BinaryBasicBlock::getConditionalSuccessor(false),
the false-branch (fallthrough) successor of a two-successor conditional
block: defined only when the block has exactly two successors, and then it
is the second one. -/
def getConditionalSuccessorFalse (bb : BinaryBasicBlockModel) : Option Nat :=
  if bb.succs.length == 2 then some (bb.succs.getD 1 0) else none

/-- The Order vector of parseFunctionProfile: DFS order when the header
says so, layout order otherwise, as a list of block indices. -/
def blockOrder (bf : BinaryFunctionModel) (isDFS : Bool) : List Nat :=
  if isDFS then bf.dfsOrder else List.range bf.blocks.length

/-- The context parseFunctionProfile reads from the surrounding reader:
the header, options, oracles, the YamlProfileToFunction table and the two
normalization flags. -/
structure ParseCtx where
  header : BinaryProfileHeader
  opts : Opts
  oracles : Oracles
  yamlProfileToFunction : List (Option Nat)
  normalizeByInsnCount : Bool
  normalizeByCalls : Bool

/-- The mutable state threaded through the per-block loop of
parseFunctionProfile: the function being annotated, the three mismatch
counters, the running sample-mode function execution count, and the count
of "ignoring duplicate ... info" warnings. -/
structure ParseState where
  bf : BinaryFunctionModel
  mismatchedBlocks : Nat
  mismatchedCalls : Nat
  mismatchedEdges : Nat
  functionExecutionCount : Nat
  dupAnnotWarnings : Nat
  deriving Repr, Inhabited

/-- Callee resolution for a call-site entry: YamlProfileToFunction[DestId]
when DestId is in range, then getSymbolForEntryID with the entry
discriminator. -/
def resolveCalleeSymbol (ctx : ParseCtx) (csi : CallSiteInfo) :
    Option EntrySymbol :=
  if csi.destId < ctx.yamlProfileToFunction.length then
    match ctx.yamlProfileToFunction.getD csi.destId none with
    | some fid => some (fid, csi.entryDiscriminator)
    | none => none
  else none

/-- The validation conditions under which a call-site entry is counted as
mismatched and its annotation phase skipped: offset out of the block's
original size, no instruction at inputOffset + offset, or an instruction
that is neither a call nor an indirect branch. -/
def callSiteBad (bf : BinaryFunctionModel) (bbIdx : Nat) (csi : CallSiteInfo) :
    Bool :=
  let bb := getBlockD bf bbIdx
  if csi.offset ≥ bb.originalSize then true
  else
    match instructionAtOffset bf (bb.inputOffset + csi.offset) with
    | none => true
    | some instr => !instr.isCall && !instr.isIndirectBranch

/-- One iteration of the call-site loop of parseFunctionProfile. -/
def processCallSite (ctx : ParseCtx) (bbIdx : Nat) (st : ParseState)
    (csi : CallSiteInfo) : ParseState :=
  let calleeSym := resolveCalleeSymbol ctx csi
  let bf1 := { st.bf with
    callSites := st.bf.callSites ++ [⟨calleeSym, csi.count, csi.mispreds, csi.offset⟩] }
  let st1 := { st with bf := bf1 }
  let bb := getBlockD bf1 bbIdx
  if csi.offset ≥ bb.originalSize then
    { st1 with mismatchedCalls := st1.mismatchedCalls + 1 }
  else
    match instructionAtOffset bf1 (bb.inputOffset + csi.offset) with
    | none => { st1 with mismatchedCalls := st1.mismatchedCalls + 1 }
    | some instr =>
      if !instr.isCall && !instr.isIndirectBranch then
        { st1 with mismatchedCalls := st1.mismatchedCalls + 1 }
      else
        let off := bb.inputOffset + csi.offset
        if instr.isIndirectCall || instr.isIndirectBranch then
          let upd := fun i => addToCallProfile i ⟨calleeSym, csi.count, csi.mispreds⟩
          { st1 with bf := setInstructionAtOffset bf1 off upd }
        else if instr.isCondTailCall then
          let r1 := setAnnotationScalar instr "CTCTakenCount" csi.count
          let r2 := setAnnotationScalar r1.1 "CTCMispredCount" csi.mispreds
          { st1 with
            bf := setInstructionAtOffset bf1 off (fun _ => r2.1),
            dupAnnotWarnings := st1.dupAnnotWarnings
              + (if r1.2 then 1 else 0) + (if r2.2 then 1 else 0) }
        else
          let r1 := setAnnotationScalar instr "Count" csi.count
          { st1 with
            bf := setInstructionAtOffset bf1 off (fun _ => r1.1),
            dupAnnotWarnings := st1.dupAnnotWarnings + (if r1.2 then 1 else 0) }

/-- One iteration of the successor loop of parseFunctionProfile, including
the pass-through block heuristic. -/
def processSuccessor (order : List Nat) (bbIdx : Nat) (st : ParseState)
    (si : SuccessorInfo) : ParseState :=
  if si.index ≥ order.length then
    { st with mismatchedEdges := st.mismatchedEdges + 1 }
  else
    let toIdx := order.getD si.index 0
    let bb := getBlockD st.bf bbIdx
    if bb.succs.contains toIdx then
      { st with bf := addBranchInfo st.bf bbIdx toIdx si.count si.mispreds }
    else
      match getConditionalSuccessorFalse bb with
      | some ftIdx =>
        let ft := getBlockD st.bf ftIdx
        if ft.succs.length == 1 && ft.succs.contains toIdx then
          let bf1 := addBranchInfo st.bf ftIdx toIdx si.count si.mispreds
          { st with bf := addBranchInfo bf1 bbIdx ftIdx si.count si.mispreds }
        else
          { st with mismatchedEdges := st.mismatchedEdges + 1 }
      | none => { st with mismatchedEdges := st.mismatchedEdges + 1 }

/-- The sample-mode per-block count: EventCount × 1000, divided by the
non-pseudo instruction count when NormalizeByInsnCount holds and that
count is nonzero, else by (number of calls + 1) when NormalizeByCalls. -/
def normalizedSampleCount (ctx : ParseCtx) (bb : BinaryBasicBlockModel)
    (eventCount : Nat) : Nat :=
  let ns := eventCount * 1000
  if ctx.normalizeByInsnCount && bb.numNonPseudos != 0 then ns / bb.numNonPseudos
  else if ctx.normalizeByCalls then ns / (bb.numCalls + 1)
  else ns

/-- One iteration of the per-block loop of parseFunctionProfile. -/
def processBlock (ctx : ParseCtx) (order : List Nat) (st : ParseState)
    (ybb : BinaryBasicBlockProfile) : ParseState :=
  if ybb.index ≥ order.length then
    { st with mismatchedBlocks := st.mismatchedBlocks + 1 }
  else
    let bbIdx := order.getD ybb.index 0
    if isSampleProfile ctx.header then
      if ybb.eventCount == 0 then
        { st with bf := setBlockExec st.bf bbIdx (some 0) }
      else
        let bb := getBlockD st.bf bbIdx
        let ns := normalizedSampleCount ctx bb ybb.eventCount
        let st1 := { st with bf := setBlockExec st.bf bbIdx (some ns) }
        if bb.entryPoint then
          { st1 with functionExecutionCount := st1.functionExecutionCount + ns }
        else st1
    else
      let st1 := { st with bf := setBlockExec st.bf bbIdx (some ybb.execCount) }
      let st2 := ybb.callSites.foldl (processCallSite ctx bbIdx) st1
      ybb.successors.foldl (processSuccessor order bbIdx) st2

/-- The per-function result of parseFunctionProfile: the mutated function,
the boolean verdict, the three mismatch counters, whether
Stats.NumStaleFuncsWithEqualBlockCount was bumped, and the number of
duplicate-annotation warnings. -/
structure ParseResult where
  bf : BinaryFunctionModel
  profileMatched : Bool
  mismatchedBlocks : Nat
  mismatchedCalls : Nat
  mismatchedEdges : Nat
  staleFuncBump : Bool
  dupAnnotWarnings : Nat
  deriving Repr, Inhabited

/-- The FuncRawBranchCount computation: the sum over all profiled blocks
of the sum of their successor Count values. -/
def sumSuccessorCounts (ybf : BinaryFunctionProfile) : Nat :=
  (ybf.blocks.map (fun b => (b.successors.map (fun s => s.count)).sum)).sum

/-- YAMLProfileReader::parseFunctionProfile, translated from the source:
set ExecutionCount and RawBranchCount; return early on an empty function;
hash and block-count checks; the per-block loop; the COUNT_NO_PROFILE
cleanup; the sample-mode ExecutionCount overwrite; the verdict combining
the mismatch counters, the stale-statistics bump, the inference hook, and
markProfiled on success. -/
def parseFunctionProfile (ctx : ParseCtx) (bf0 : BinaryFunctionModel)
    (ybf : BinaryFunctionProfile) : ParseResult :=
  let bf1 := { bf0 with
    execCount := some ybf.execCount,
    rawBranchCount := sumSuccessorCounts ybf }
  if bf1.blocks.isEmpty then
    ⟨bf1, true, 0, 0, 0, false, 0⟩
  else
    let bf2 :=
      if !ctx.opts.ignoreHash && bf1.storedHash == 0 then
        { bf1 with storedHash := bf1.trueHash }
      else bf1
    let hashOk := ctx.opts.ignoreHash || (ybf.hash == bf2.storedHash)
    let sizeOk := ybf.numBasicBlocks == bf2.blocks.length
    let order := blockOrder bf2 ctx.header.isDFSOrder
    let st1 := ybf.blocks.foldl (processBlock ctx order) ⟨bf2, 0, 0, 0, 0, 0⟩
    let clearUnread := fun (bb : BinaryBasicBlockModel) =>
      if bb.execCount = none then { bb with execCount := some 0 } else bb
    let bf3 := { st1.bf with blocks := st1.bf.blocks.map clearUnread }
    let bf4 :=
      if isSampleProfile ctx.header then
        { bf3 with execCount := some st1.functionExecutionCount }
      else bf3
    let pm1 := hashOk && sizeOk
      && (st1.mismatchedBlocks == 0 && st1.mismatchedCalls == 0 && st1.mismatchedEdges == 0)
    let staleBump := !pm1 && (ybf.numBasicBlocks != bf4.blocks.length)
    let pm2 :=
      if !pm1 && ctx.opts.inferStaleProfile && ctx.oracles.inferStale bf4 ybf then
        true
      else pm1
    let bf5 := if pm2 then { bf4 with profiledFlags := some ctx.header.flags } else bf4
    ⟨bf5, pm2, st1.mismatchedBlocks, st1.mismatchedCalls, st1.mismatchedEdges,
      staleBump, st1.dupAnnotWarnings⟩

/-- StringRef::find of a substring compared against npos, over character
lists: true iff the needle occurs (contiguously) inside the haystack. -/
def findsSub : List Char → List Char → Bool
  | [], needle => needle.isEmpty
  | c :: rest, needle => needle.isPrefixOf (c :: rest) || findsSub rest needle

/-- YAMLProfileReader::usesEvent: the event-names string of the header
contains the given name as a substring (EventNames.find(Name) != npos). -/
def usesEvent (hdr : BinaryProfileHeader) (name : String) : Bool :=
  findsSub hdr.eventNames.data name.data

/-- The NormalizeByInsnCount flag set in readProfile:
usesEvent("cycles") || usesEvent("instructions"). -/
def computeNormalizeByInsnCount (hdr : BinaryProfileHeader) : Bool :=
  usesEvent hdr "cycles" || usesEvent hdr "instructions"

/-- The NormalizeByCalls flag set in readProfile: usesEvent("branches"). -/
def computeNormalizeByCalls (hdr : BinaryProfileHeader) : Bool :=
  usesEvent hdr "branches"

/-- The name cleaning of buildNameMaps: truncate at the first occurrence
of "(*" (Name.find("(*") then substr). -/
def cleanChars : List Char → List Char
  | '(' :: '*' :: _ => []
  | c :: rest => c :: cleanChars rest
  | [] => []

def cleanProfileName (s : String) : String :=
  ⟨cleanChars s.data⟩

/-- The reader's own tables (YAMLProfileReader members).  used is the
per-record Used flag, aligned with the document's Functions sequence;
ltoCommonNameMap holds record positions, ltoCommonNameFunctionMap holds
binary-function ids. -/
structure ReaderState where
  profileFunctionNames : List String
  profileBFs : List (Option Nat)
  ltoCommonNameMap : List (String × List Nat)
  ltoCommonNameFunctionMap : List (String × List Nat)
  yamlProfileToFunction : List (Option Nat)
  profiledFunctions : List Nat
  used : List Bool
  normalizeByInsnCount : Bool
  normalizeByCalls : Bool
  deriving Repr, Inhabited

def emptyReaderState : ReaderState :=
  ⟨[], [], [], [], [], [], [], false, false⟩

/-- Append a value to the bucket of a key in a multimap, creating the
bucket on first touch (StringMap operator[] followed by push_back). -/
def assocAppend (m : List (String × List Nat)) (k : String) (v : Nat) :
    List (String × List Nat) :=
  if m.any (fun p => p.1 == k) then
    m.map (fun p => if p.1 == k then (p.1, p.2 ++ [v]) else p)
  else m ++ [(k, [v])]

/-- Insert a value into the set bucket of a key (StringMap operator[]
followed by unordered_set::insert — duplicates dropped). -/
def assocInsertSet (m : List (String × List Nat)) (k : String) (v : Nat) :
    List (String × List Nat) :=
  if m.any (fun p => p.1 == k) then
    m.map (fun p => if p.1 == k then (p.1, if p.2.contains v then p.2 else p.2 ++ [v]) else p)
  else m ++ [(k, [v])]

/-- Set a key to a value, overwriting (DenseMap operator[] assignment). -/
def assocSet (m : List (Nat × Nat)) (k v : Nat) : List (Nat × Nat) :=
  if m.any (fun p => p.1 == k) then
    m.map (fun p => if p.1 == k then (p.1, v) else p)
  else m ++ [(k, v)]

/-- YAMLProfileReader::buildNameMaps: for each record clean the name,
record it in ProfileFunctionNames, resolve it through the BinaryContext
into ProfileBFs, and classify it under its LTO common name; then classify
every binary symbol under its LTO common name.  The Used flags are
initialised to false here, one per record. -/
def buildNameMaps (oracles : Oracles) (d : BinaryProfile)
    (bc : BinaryContextModel) : ReaderState :=
  let step := fun (rs : ReaderState) (p : Nat × BinaryFunctionProfile) =>
    let name := cleanProfileName p.2.name
    let rs1 := { rs with
      profileFunctionNames := rs.profileFunctionNames ++ [name],
      profileBFs := rs.profileBFs ++ [bc.nameToFun.lookup name] }
    match oracles.getLTOCommonName name with
    | some cn => { rs1 with ltoCommonNameMap := assocAppend rs1.ltoCommonNameMap cn p.1 }
    | none => rs1
  let rs2 := d.functions.enum.foldl step emptyReaderState
  let rs3 := bc.symbolNames.foldl
    (fun rs p =>
      match oracles.getLTOCommonName p.1 with
      | some cn => { rs with ltoCommonNameFunctionMap := assocInsertSet rs.ltoCommonNameFunctionMap cn p.2 }
      | none => rs)
    rs2
  { rs3 with used := List.replicate d.functions.length false }

/-- The preliminary execution-count assignment of preprocessProfile: for
each (record, ProfileBFs slot) pair, a null slot is skipped; a function
without profile gets the record's ExecCount provisionally; a function that
already has one is a duplicate and its slot is nulled. -/
def preliminaryAssign :
    List (BinaryFunctionProfile × Option Nat) → BinaryContextModel →
    List (Option Nat) × BinaryContextModel
  | [], bc => ([], bc)
  | (_, none) :: rest, bc =>
    let r := preliminaryAssign rest bc
    (none :: r.1, r.2)
  | (ybf, some fid) :: rest, bc =>
    let f := getFuncD bc fid
    if hasProfileFn f then
      let r := preliminaryAssign rest bc
      (none :: r.1, r.2)
    else
      let bc1 := setFunc bc fid { f with execCount := some ybf.execCount }
      let r := preliminaryAssign rest bc1
      (some fid :: r.1, r.2)

/-- The inputs preprocessProfile can face: a file that cannot be opened, a
document the loader rejects with a syntax error, or a loaded document. -/
inductive ProfileInput
  | openFailure
  | malformed
  | doc (d : BinaryProfile)
  deriving Inhabited

/-- The fatal error classes of preprocessProfile. -/
inductive PreprocessError
  | cannotOpen
  | parseFailed
  | badVersion
  | multiEvent
  deriving DecidableEq, Repr

/-- YAMLProfileReader::preprocessProfile, state-passing: the four fatal
checks short-circuit with the reader state still empty and the
BinaryContext untouched; otherwise buildNameMaps runs and the preliminary
execution counts are assigned. -/
def preprocessProfile (oracles : Oracles) (input : ProfileInput)
    (bc : BinaryContextModel) :
    Option PreprocessError × ReaderState × BinaryContextModel :=
  match input with
  | ProfileInput.openFailure => (some PreprocessError.cannotOpen, emptyReaderState, bc)
  | ProfileInput.malformed => (some PreprocessError.parseFailed, emptyReaderState, bc)
  | ProfileInput.doc d =>
    if d.header.version ≠ 1 then
      (some PreprocessError.badVersion, emptyReaderState, bc)
    else if d.header.eventNames.data.contains ',' then
      (some PreprocessError.multiEvent, emptyReaderState, bc)
    else
      let rs := buildNameMaps oracles d bc
      let r := preliminaryAssign (d.functions.zip rs.profileBFs) bc
      (none, { rs with profileBFs := r.1 }, r.2)

/-- The matcher state threaded through the stages of readProfile: the
reader tables, the BinaryContext, and the four matched-by counters. -/
structure MatchState where
  rs : ReaderState
  bc : BinaryContextModel
  matchedWithExactName : Nat
  matchedWithHash : Nat
  matchedWithLTOCommonName : Nat
  matchedWithNameSimilarity : Nat
  deriving Repr, Inhabited

/-- Modelled from the spec: YAMLProfileReader::matchProfileToFunction
(declared in the reader's header) — the claim primitive: set
YamlProfileToFunction[Id] to the function, flip the record's Used flag,
and insert the function into ProfiledFunctions.  recIdx is the record's
position, carrying its Used flag. -/
def matchProfileToFunction (st : MatchState) (recIdx : Nat)
    (ybf : BinaryFunctionProfile) (fid : Nat) : MatchState :=
  { st with rs := { st.rs with
      yamlProfileToFunction := st.rs.yamlProfileToFunction.set ybf.id (some fid),
      used := st.rs.used.set recIdx true,
      profiledFunctions := fid :: st.rs.profiledFunctions } }

/-- The profileMatches lambda of readProfile: block-count equality under
profile-ignore-hash, hash equality otherwise. -/
def profileMatches (opts : Opts) (ybf : BinaryFunctionProfile)
    (bf : BinaryFunctionModel) : Bool :=
  if opts.ignoreHash then ybf.numBasicBlocks == bf.blocks.length
  else ybf.hash == bf.storedHash

/-- BinaryFunction::computeHash for the run's ordering and hash function:
store the function's fingerprint. -/
def computeHashFn (f : BinaryFunctionModel) : BinaryFunctionModel :=
  { f with storedHash := f.trueHash }

/-- The hash precomputation of readProfile: under
match-profile-with-function-hash hash every binary function; otherwise,
unless profile-ignore-hash, hash only the name-matched shortlist. -/
def precomputeHashes (opts : Opts) (pbfs : List (Option Nat))
    (bc : BinaryContextModel) : BinaryContextModel :=
  if opts.matchProfileWithFunctionHash then
    { bc with functions := bc.functions.map computeHashFn }
  else if !opts.ignoreHash then
    pbfs.foldl
      (fun bc ob =>
        match ob with
        | some fid => setFunc bc fid (computeHashFn (getFuncD bc fid))
        | none => bc)
      bc
  else bc

/-- One iteration of the exact-name stage (S2) of readProfile: skip null
slots; clear the preliminary execution count; claim on profileMatches and
count it under MatchedWithExactName. -/
def stage2Step (opts : Opts) (st : MatchState)
    (p : (Nat × BinaryFunctionProfile) × Option Nat) : MatchState :=
  match p.2 with
  | none => st
  | some fid =>
    let f := getFuncD st.bc fid
    let st1 := { st with bc := setFunc st.bc fid { f with execCount := none } }
    if profileMatches opts p.1.2 (getFuncD st1.bc fid) then
      { matchProfileToFunction st1 p.1.1 p.1.2 fid with
        matchedWithExactName := st1.matchedWithExactName + 1 }
    else st1

/-- The exact-name stage (S2) over the zipped (record, slot) sequence. -/
def stage2 (opts : Opts) (st : MatchState)
    (l : List ((Nat × BinaryFunctionProfile) × Option Nat)) : MatchState :=
  l.foldl (stage2Step opts) st

/-- The StrictHashToBF map of the optional hash stage: every binary
function keyed by its hash, later writes overwriting earlier ones. -/
def buildStrictHashToBF (bc : BinaryContextModel) : List (Nat × Nat) :=
  bc.functions.enum.foldl (fun m p => assocSet m p.2.storedHash p.1) []

/-- One iteration of the hash-only stage (S3): skip used records; match
the first function with the same exact hash unless already claimed. -/
def stage3Step (st : MatchState) (hashMap : List (Nat × Nat))
    (p : Nat × BinaryFunctionProfile) : MatchState :=
  if st.rs.used.getD p.1 false then st
  else
    match hashMap.lookup p.2.hash with
    | some fid =>
      if st.rs.profiledFunctions.contains fid then st
      else
        { matchProfileToFunction st p.1 p.2 fid with
          matchedWithHash := st.matchedWithHash + 1 }
    | none => st

/-- The hash-only stage (S3), present only under
match-profile-with-function-hash. -/
def stage3 (opts : Opts) (st : MatchState)
    (fs : List BinaryFunctionProfile) : MatchState :=
  if opts.matchProfileWithFunctionHash then
    let hashMap := buildStrictHashToBF st.bc
    fs.enum.foldl (fun s p => stage3Step s hashMap p) st
  else st

/-- The matchProfile lambda of the LTO stage (S4): an unused record is
matched against the first unclaimed function of the bucket that satisfies
profileMatches. -/
def stage4FirstMatch (opts : Opts) (st : MatchState)
    (ybf : BinaryFunctionProfile) : List Nat → Option Nat
  | [] => none
  | fid :: rest =>
    if !st.rs.profiledFunctions.contains fid
        && profileMatches opts ybf (getFuncD st.bc fid) then some fid
    else stage4FirstMatch opts st ybf rest

def stage4MatchProfile (opts : Opts) (d : BinaryProfile) (fns : List Nat)
    (st : MatchState) (pi : Nat) : MatchState × Bool :=
  let ybf := d.functions.getD pi default
  if st.rs.used.getD pi false then (st, false)
  else
    match stage4FirstMatch opts st ybf fns with
    | some fid =>
      ({ matchProfileToFunction st pi ybf fid with
         matchedWithLTOCommonName := st.matchedWithLTOCommonName + 1 }, true)
    | none => (st, false)

/-- llvm::any_of(LTOProfiles, matchProfile): stop at the first record of
the bucket that gets matched. -/
def stage4AnyOf (opts : Opts) (d : BinaryProfile) (fns : List Nat) :
    List Nat → MatchState → MatchState × Bool
  | [], st => (st, false)
  | pi :: rest, st =>
    let r := stage4MatchProfile opts d fns st pi
    if r.2 then (r.1, true) else stage4AnyOf opts d fns rest r.1

/-- One bucket of the LTO common-name stage (S4): run the any_of scan,
then the unconditional singleton bind when both sides of the bucket are
singletons and still free. -/
def stage4Entry (opts : Opts) (d : BinaryProfile) (st : MatchState)
    (entry : String × List Nat) : MatchState :=
  if !(st.rs.ltoCommonNameFunctionMap.any (fun p => p.1 == entry.1)) then st
  else
    let fns := (st.rs.ltoCommonNameFunctionMap.lookup entry.1).getD []
    let r := stage4AnyOf opts d fns entry.2 st
    let st1 := r.1
    let pi := entry.2.headD 0
    let fid := fns.headD 0
    if !r.2 && entry.2.length == 1 && fns.length == 1
        && !(st1.rs.used.getD pi false)
        && !(st1.rs.profiledFunctions.contains fid) then
      { matchProfileToFunction st1 pi (d.functions.getD pi default) fid with
        matchedWithLTOCommonName := st1.matchedWithLTOCommonName + 1 }
    else st1

/-- The LTO common-name stage (S4) over the reader's LTOCommonNameMap. -/
def stage4 (opts : Opts) (d : BinaryProfile) (st : MatchState) : MatchState :=
  st.rs.ltoCommonNameMap.foldl (stage4Entry opts d) st

/-- One iteration of the residual stage (S5): bind a still-paired
(record, slot) when the record is unused and the function unclaimed. -/
def stage5Step (st : MatchState)
    (p : (Nat × BinaryFunctionProfile) × Option Nat) : MatchState :=
  match p.2 with
  | none => st
  | some fid =>
    if !(st.rs.used.getD p.1.1 false) && !(st.rs.profiledFunctions.contains fid) then
      matchProfileToFunction st p.1.1 p.1.2 fid
    else st

/-- The residual stage (S5). -/
def stage5 (st : MatchState)
    (l : List ((Nat × BinaryFunctionProfile) × Option Nat)) : MatchState :=
  l.foldl stage5Step st

/-- The inner scan of matchWithNameSimilarity: among the namespace's
functions, skip claimed ones and block-count mismatches, and keep the
function minimising edit distance of demangled names (strict improvement,
so the first minimum wins). -/
def stage6Best (oracles : Oracles) (st : MatchState)
    (ybf : BinaryFunctionProfile) (ydem : String) (bfs : List Nat) :
    Option (Nat × Nat) :=
  bfs.foldl
    (fun acc fid =>
      if st.rs.profiledFunctions.contains fid then acc
      else if (getFuncD st.bc fid).blocks.length != ybf.numBasicBlocks then acc
      else
        let dist := oracles.editDistance (getFuncD st.bc fid).demangledName ydem
        match acc with
        | none => some (dist, fid)
        | some best => if dist < best.1 then some (dist, fid) else acc)
    none

/-- YAMLProfileReader::matchWithNameSimilarity (S6): demangle and bucket
the profile names by namespace, bucket the candidate binary functions by
namespace filtered by block-count presence, then bind each unused record
to its closest-named unclaimed function within the edit-distance
threshold. -/
def stage6 (opts : Opts) (oracles : Oracles) (d : BinaryProfile)
    (st0 : MatchState) : MatchState :=
  let demNames := d.functions.map (fun ybf => oracles.demangleName ybf.name)
  let namespaces := demNames.map oracles.deriveNameSpace
  let nsSizes := (namespaces.zip (d.functions.map (fun y => y.numBasicBlocks))).foldl
    (fun m p => assocInsertSet m p.1 p.2) []
  let nsToBFs := st0.bc.functions.enum.foldl
    (fun m p =>
      let ns := oracles.deriveNameSpace p.2.demangledName
      match nsSizes.lookup ns with
      | none => m
      | some sizes =>
        if sizes.contains p.2.blocks.length then assocAppend m ns p.1 else m)
    []
  (List.range d.functions.length).foldl
    (fun st i =>
      let ybf := d.functions.getD i default
      if st.rs.used.getD i false then st
      else
        match nsToBFs.lookup (namespaces.getD i "") with
        | none => st
        | some bfs =>
          match stage6Best oracles st ybf (demNames.getD i "") bfs with
          | some best =>
            if best.1 ≤ opts.nameSimilarityFunctionMatchingThreshold then
              { matchProfileToFunction st i ybf best.2 with
                matchedWithNameSimilarity := st.matchedWithNameSimilarity + 1 }
            else st
          | none => st)
    st0

/-- One iteration of the final propagation loop of readProfile: a record
whose Id is out of the table's bounds, or whose slot is null, counts as
unused; otherwise parseFunctionProfile runs on the bound pair and the
function and statistics are written back. -/
def parseLoopStep (ctx : ParseCtx) (acc : MatchState × Nat)
    (ybf : BinaryFunctionProfile) : MatchState × Nat :=
  let st := acc.1
  if ybf.id ≥ st.rs.yamlProfileToFunction.length then (st, acc.2 + 1)
  else
    match st.rs.yamlProfileToFunction.getD ybf.id none with
    | some fid =>
      let res := parseFunctionProfile ctx (getFuncD st.bc fid) ybf
      let bc1 := setFunc st.bc fid res.bf
      let bc2 := { bc1 with numStaleFuncsWithEqualBlockCount :=
        bc1.numStaleFuncsWithEqualBlockCount + (if res.staleFuncBump then 1 else 0) }
      ({ st with bc := bc2 }, acc.2)
    | none => (st, acc.2 + 1)

/-- The match stages S2–S6 of readProfile, run in order on the state that
already holds the sized result table and the precomputed hashes. -/
def applyStages (opts : Opts) (oracles : Oracles) (d : BinaryProfile)
    (st1 : MatchState) : MatchState :=
  let st2 := stage2 opts st1 (d.functions.enum.zip st1.rs.profileBFs)
  let st3 := stage3 opts st2 d.functions
  let st4 := stage4 opts d st3
  let st5 := stage5 st4 (d.functions.enum.zip st4.rs.profileBFs)
  if opts.nameSimilarityFunctionMatchingThreshold > 0 then
    stage6 opts oracles d st5
  else st5

/-- The tail of readProfile after the match stages: run propagation over
every bound pair, record the unused count, and under lite + hash matching
mark unprofiled functions ignored.  Returns the final state and
NumUnused. -/
def propagate (opts : Opts) (oracles : Oracles) (d : BinaryProfile)
    (st7 : MatchState) : MatchState × Nat :=
  let ctx : ParseCtx := ⟨d.header, opts, oracles, st7.rs.yamlProfileToFunction,
    st7.rs.normalizeByInsnCount, st7.rs.normalizeByCalls⟩
  let r := d.functions.foldl (parseLoopStep ctx) (st7, 0)
  let st8 := { r.1 with bc := { r.1.bc with numUnusedProfiledObjects := r.2 } }
  let markIgnored := fun (f : BinaryFunctionModel) =>
    if !hasProfileFn f then { f with ignored := true } else f
  let st9 :=
    if opts.lite && opts.matchProfileWithFunctionHash then
      { st8 with bc := { st8.bc with functions := st8.bc.functions.map markIgnored } }
    else st8
  (st9, r.2)

/-- YAMLProfileReader::readProfile, translated from the source: size the
result table, precompute hashes, run the match stages S2–S6 in order, set
the normalization flags, run propagation over every bound pair, record
the unused count, and under lite + hash matching mark unprofiled
functions ignored.  Returns the final state and NumUnused. -/
def readProfile (opts : Opts) (oracles : Oracles) (d : BinaryProfile)
    (rs0 : ReaderState) (bc0 : BinaryContextModel) : MatchState × Nat :=
  let rs1 := { rs0 with
    yamlProfileToFunction := List.replicate (d.functions.length + 1) none }
  let bc1 := precomputeHashes opts rs1.profileBFs bc0
  let st6 := applyStages opts oracles d ⟨rs1, bc1, 0, 0, 0, 0⟩
  let st7 := { st6 with rs := { st6.rs with
    normalizeByInsnCount := computeNormalizeByInsnCount d.header,
    normalizeByCalls := computeNormalizeByCalls d.header } }
  propagate opts oracles d st7

/-- The whole run the spec describes: preprocessProfile, and on success
readProfile on the loaded document. -/
def runProfileReader (opts : Opts) (oracles : Oracles) (input : ProfileInput)
    (bc : BinaryContextModel) :
    Option PreprocessError × MatchState × Nat :=
  let pre := preprocessProfile oracles input bc
  match pre.1, input with
  | none, ProfileInput.doc d =>
    let r := readProfile opts oracles d pre.2.1 pre.2.2
    (none, r.1, r.2)
  | e, _ => (e, ⟨pre.2.1, pre.2.2, 0, 0, 0, 0⟩, 0)

/-! ## Generic helper lemmas -/

theorem foldlPreserve {α β : Type} (f : β → α → β) (P : β → Prop)
    (hstep : ∀ s a, P s → P (f s a)) :
    ∀ (l : List α) (s : β), P s → P (l.foldl f s) := by
  intro l
  induction l with
  | nil => intro s hs; exact hs
  | cons a t ih => intro s hs; exact ih (f s a) (hstep s a hs)

theorem optGetD_set (l : List (Option Nat)) (i a : Nat) (v : Option Nat) :
    (l.set i v).getD a none = if i = a ∧ i < l.length then v else l.getD a none := by
  simp only [List.getD_eq_getElem?_getD, List.getElem?_set]
  by_cases h1 : i = a
  · subst h1
    by_cases h2 : i < l.length
    · simp [h2]
    · have : l[i]? = none := List.getElem?_eq_none (by omega)
      simp [h2, this]
  · simp [h1]

theorem getD_replicate_none (n a : Nat) :
    (List.replicate n (none : Option Nat)).getD a none = none := by
  simp only [List.getD_eq_getElem?_getD, List.getElem?_replicate]
  by_cases h : a < n <;> simp [h]

theorem lookup_mem {β : Type} (l : List (String × β)) (k : String) (v : β)
    (h : l.lookup k = some v) : (k, v) ∈ l := by
  induction l with
  | nil => simp [List.lookup] at h
  | cons p t ih =>
    rcases p with ⟨a, b⟩
    rw [List.lookup_cons] at h
    by_cases hk : (k == a) = true
    · simp only [hk] at h
      obtain rfl : b = v := by cases h; rfl
      have : k = a := by simpa using hk
      subst this
      exact List.mem_cons_self _ _
    · simp only [Bool.not_eq_true] at hk
      simp only [hk] at h
      exact List.mem_cons_of_mem _ (ih h)

theorem natLookup_mem (l : List (Nat × Nat)) (k v : Nat)
    (h : l.lookup k = some v) : (k, v) ∈ l := by
  induction l with
  | nil => simp [List.lookup] at h
  | cons p t ih =>
    rcases p with ⟨a, b⟩
    rw [List.lookup_cons] at h
    by_cases hk : (k == a) = true
    · simp only [hk] at h
      obtain rfl : b = v := by cases h; rfl
      have : k = a := by simpa using hk
      subst this
      exact List.mem_cons_self _ _
    · simp only [Bool.not_eq_true] at hk
      simp only [hk] at h
      exact List.mem_cons_of_mem _ (ih h)

theorem zip_snd_filterMap {α : Type} :
    ∀ (l1 : List α) (l2 : List (Option Nat)), l1.length = l2.length →
      (l1.zip l2).filterMap (fun p => p.2) = l2.filterMap id
  | [], [], _ => rfl
  | [], _ :: _, h => by simp at h
  | _ :: _, [], h => by simp at h
  | a :: t1, b :: t2, h => by
    have ht : t1.length = t2.length := by simpa using h
    cases b with
    | none => simpa [List.zip_cons_cons, List.filterMap_cons] using
        zip_snd_filterMap t1 t2 ht
    | some x => simpa [List.zip_cons_cons, List.filterMap_cons] using
        zip_snd_filterMap t1 t2 ht

/-! ## C10: usesEvent is substring containment -/

theorem findsSub_iff_substring : ∀ (hay needle : List Char),
    findsSub hay needle = true ↔ needle <:+: hay := by
  intro hay
  induction hay with
  | nil =>
    intro needle
    simp [findsSub, List.isEmpty_iff, List.infix_nil]
  | cons c rest ih =>
    intro needle
    simp only [findsSub, Bool.or_eq_true, List.isPrefixOf_iff_prefix, ih,
      List.infix_cons_iff]

/-- C10: usesEvent(Name) holds exactly when Name occurs as a substring of
the header's event-names string (not as an exact member of a
comma-separated set); consequently NormalizeByInsnCount is set whenever
"cycles" or "instructions" occurs anywhere inside the event-names string —
for example inside the longer event name "cpu-cycles" — and
NormalizeByCalls whenever "branches" does. -/
theorem c10_usesEvent_is_substring (hdr : BinaryProfileHeader) (name : String) :
    (usesEvent hdr name = true ↔ name.data <:+: hdr.eventNames.data)
    ∧ computeNormalizeByInsnCount hdr
        = (usesEvent hdr "cycles" || usesEvent hdr "instructions")
    ∧ computeNormalizeByCalls hdr = usesEvent hdr "branches"
    ∧ (("cycles" : String).data <:+: hdr.eventNames.data →
        computeNormalizeByInsnCount hdr = true)
    ∧ (("instructions" : String).data <:+: hdr.eventNames.data →
        computeNormalizeByInsnCount hdr = true)
    ∧ (("branches" : String).data <:+: hdr.eventNames.data →
        computeNormalizeByCalls hdr = true) := by
  refine ⟨findsSub_iff_substring _ _, rfl, rfl, ?_, ?_, ?_⟩
  · intro h
    have : usesEvent hdr "cycles" = true := (findsSub_iff_substring _ _).2 h
    simp [computeNormalizeByInsnCount, this]
  · intro h
    have : usesEvent hdr "instructions" = true := (findsSub_iff_substring _ _).2 h
    simp [computeNormalizeByInsnCount, this]
  · intro h
    exact (findsSub_iff_substring _ _).2 h

/-- Witness for C10 at a concrete header whose event-names string is
"cpu-cycles": "cycles" is a substring but not a comma-separated member,
and NormalizeByInsnCount is set. -/
theorem c10_witness :
    (usesEvent ⟨1, 0, "cpu-cycles", HashFunctionKind.stdHash, false⟩ "cycles" = true
      ↔ ("cycles" : String).data <:+: ("cpu-cycles" : String).data)
    ∧ computeNormalizeByInsnCount ⟨1, 0, "cpu-cycles", HashFunctionKind.stdHash, false⟩
        = true := by
  constructor
  · exact (c10_usesEvent_is_substring ⟨1, 0, "cpu-cycles", HashFunctionKind.stdHash, false⟩ "cycles").1
  · exact (c10_usesEvent_is_substring ⟨1, 0, "cpu-cycles", HashFunctionKind.stdHash, false⟩ "cycles").2.2.2.1
      (by decide)

/-! ## Function-level fields preserved by the per-block loop -/

/-- The function-level fields that the per-block loop of
parseFunctionProfile never writes. -/
def fview (bf : BinaryFunctionModel) :
    List String × String × List Nat × Nat × Nat × Option Nat × Nat × Option Nat × Bool :=
  (bf.names, bf.demangledName, bf.dfsOrder, bf.storedHash, bf.trueHash,
    bf.execCount, bf.rawBranchCount, bf.profiledFlags, bf.ignored)

theorem fview_processCallSite (ctx : ParseCtx) (bbIdx : Nat) (st : ParseState)
    (csi : CallSiteInfo) : fview (processCallSite ctx bbIdx st csi).bf = fview st.bf := by
  unfold processCallSite
  dsimp only
  repeat' split
  all_goals rfl

theorem fview_processSuccessor (order : List Nat) (bbIdx : Nat) (st : ParseState)
    (si : SuccessorInfo) : fview (processSuccessor order bbIdx st si).bf = fview st.bf := by
  unfold processSuccessor addBranchInfo setBlock
  dsimp only
  repeat' split
  all_goals rfl

theorem fview_foldl {α : Type} (f : ParseState → α → ParseState)
    (hstep : ∀ s a, fview (f s a).bf = fview s.bf) :
    ∀ (l : List α) (s : ParseState), fview ((l.foldl f s)).bf = fview s.bf := by
  intro l
  induction l with
  | nil => intro s; rfl
  | cons a t ih => intro s; rw [List.foldl_cons, ih (f s a), hstep s a]

theorem fview_processBlock (ctx : ParseCtx) (order : List Nat) (st : ParseState)
    (ybb : BinaryBasicBlockProfile) :
    fview (processBlock ctx order st ybb).bf = fview st.bf := by
  unfold processBlock
  dsimp only
  repeat' split
  all_goals try rfl
  all_goals
    rw [fview_foldl (processSuccessor order _) (fun s a => fview_processSuccessor order _ s a),
      fview_foldl (processCallSite ctx _) (fun s a => fview_processCallSite ctx _ s a)]
  all_goals rfl

theorem fview_blockLoop (ctx : ParseCtx) (order : List Nat)
    (l : List BinaryBasicBlockProfile) (st : ParseState) :
    fview ((l.foldl (processBlock ctx order) st)).bf = fview st.bf :=
  fview_foldl (processBlock ctx order) (fun s a => fview_processBlock ctx order s a) l st

theorem rawBranch_blockLoop (ctx : ParseCtx) (order : List Nat)
    (l : List BinaryBasicBlockProfile) (st : ParseState) :
    (l.foldl (processBlock ctx order) st).bf.rawBranchCount = st.bf.rawBranchCount :=
  congrArg (fun t => t.2.2.2.2.2.2.1) (fview_blockLoop ctx order l st)

/-! ## C4: RawBranchCount is the sum of all successor counts -/

/-- C4: for every function on which propagation runs, parseFunctionProfile
sets RawBranchCount to exactly the sum, over all blocks of the profile
record and all Successor entries of each block, of the successor Count
values — regardless of successor index ranges or any other matching. -/
theorem c4_rawBranchCount_sum (ctx : ParseCtx) (bf : BinaryFunctionModel)
    (ybf : BinaryFunctionProfile) :
    (parseFunctionProfile ctx bf ybf).bf.rawBranchCount
      = (ybf.blocks.map (fun b => (b.successors.map (fun s => s.count)).sum)).sum := by
  unfold parseFunctionProfile
  dsimp only
  split
  · simp [sumSuccessorCounts]
  · repeat' split
    all_goals rw [rawBranch_blockLoop]
    all_goals simp [sumSuccessorCounts]

/-! ## Shared fixtures for witnesses -/

/-- Concrete oracles for witness instantiations. -/
def witOracles : Oracles :=
  ⟨fun s => s, fun s => s, fun _ _ => 0, fun _ => none, fun _ _ => false⟩

def witHdr : BinaryProfileHeader := ⟨1, 0, "cycles", HashFunctionKind.stdHash, false⟩

def witOpts : Opts := ⟨false, false, false, false, 0⟩

def witBC : BinaryContextModel := ⟨[], [], [], 0, 0⟩

/-! ## C9: an empty binary function short-circuits propagation -/

/-- C9: when the matched binary function is empty, parseFunctionProfile
still sets its ExecutionCount to the record's ExecCount and its
RawBranchCount to the successor-count sum, then returns true immediately —
no hash or block-count check (storedHash untouched), no block touched, no
markProfiled (profiledFlags untouched), and the verdict is success. -/
theorem c9_empty_function (ctx : ParseCtx) (bf : BinaryFunctionModel)
    (ybf : BinaryFunctionProfile) (h : bf.blocks = []) :
    parseFunctionProfile ctx bf ybf =
      ⟨{ bf with execCount := some ybf.execCount,
                 rawBranchCount := sumSuccessorCounts ybf },
        true, 0, 0, 0, false, 0⟩ := by
  have hempty : bf.blocks.isEmpty = true := by simp [h]
  unfold parseFunctionProfile
  dsimp only
  simp [hempty]

def witBFEmpty : BinaryFunctionModel :=
  ⟨["f"], "f", [], [], [], 0, 7, none, 0, [], none, false⟩

def witYbfEmpty : BinaryFunctionProfile :=
  ⟨1, "f", 7, 0, 42, [⟨0, 0, 0, [], [⟨1, 5, 2⟩]⟩]⟩

def witCtx : ParseCtx := ⟨witHdr, witOpts, witOracles, [], false, false⟩

/-- Witness for C9 on a concrete empty function whose profile record
still carries a successor count of 5. -/
theorem c9_witness :
    witBFEmpty.blocks = []
    ∧ parseFunctionProfile witCtx witBFEmpty witYbfEmpty =
      ⟨{ witBFEmpty with execCount := some witYbfEmpty.execCount,
                         rawBranchCount := sumSuccessorCounts witYbfEmpty },
        true, 0, 0, 0, false, 0⟩ :=
  ⟨rfl, c9_empty_function witCtx witBFEmpty witYbfEmpty rfl⟩

/-! ## C2: the fatal-error conditions of preprocessProfile -/

/-- C2: preprocessProfile returns an error iff the file cannot be opened,
the loader reports a syntax error, the header version is not 1, or the
event-names string contains a comma; and on an error return the reader
state is still empty (no name maps built) and the BinaryContext untouched
(no execution count assigned). -/
theorem c2_preprocess_errors (oracles : Oracles) (input : ProfileInput)
    (bc : BinaryContextModel) :
    ((preprocessProfile oracles input bc).1 ≠ none ↔
      input = ProfileInput.openFailure ∨ input = ProfileInput.malformed ∨
      ∃ d, input = ProfileInput.doc d ∧
        (d.header.version ≠ 1 ∨ ',' ∈ d.header.eventNames.data))
    ∧ ((preprocessProfile oracles input bc).1 ≠ none →
        (preprocessProfile oracles input bc).2.1 = emptyReaderState
        ∧ (preprocessProfile oracles input bc).2.2 = bc) := by
  cases input with
  | openFailure => simp [preprocessProfile]
  | malformed => simp [preprocessProfile]
  | doc d =>
    by_cases hv : d.header.version = 1
    · by_cases hc : ',' ∈ d.header.eventNames.data
      · simp [preprocessProfile, hv, hc]
      · simp [preprocessProfile, hv, hc]
    · simp [preprocessProfile, hv]

/-- Witness for C2 at the open-failure input: the error is reported and
nothing is built or touched. -/
theorem c2_witness :
    (preprocessProfile witOracles ProfileInput.openFailure witBC).2.1 = emptyReaderState
    ∧ (preprocessProfile witOracles ProfileInput.openFailure witBC).2.2 = witBC :=
  (c2_preprocess_errors witOracles ProfileInput.openFailure witBC).2 (by decide)

/-! ## C7: call-site append is unconditional; validation gates annotation -/

/-- C7: for every CallSite entry processed in LBR mode, the tuple
(CalleeSymbol, Count, Mispreds, Offset) is appended to the function's
call-site list unconditionally — before and independently of validation —
and MismatchedCalls is incremented (with the annotation phase skipped and
the instructions left untouched) exactly when the offset is not below the
block's original size, or no instruction exists at inputOffset + offset,
or the instruction there is neither a call nor an indirect branch. -/
theorem c7_callsite_unconditional_append (ctx : ParseCtx) (bbIdx : Nat)
    (st : ParseState) (csi : CallSiteInfo) :
    (processCallSite ctx bbIdx st csi).bf.callSites
      = st.bf.callSites
        ++ [⟨resolveCalleeSymbol ctx csi, csi.count, csi.mispreds, csi.offset⟩]
    ∧ (processCallSite ctx bbIdx st csi).mismatchedCalls
      = st.mismatchedCalls + (if callSiteBad st.bf bbIdx csi then 1 else 0)
    ∧ (callSiteBad st.bf bbIdx csi = true →
        (processCallSite ctx bbIdx st csi).bf.insns = st.bf.insns) := by
  unfold processCallSite callSiteBad
  dsimp only [getBlockD, instructionAtOffset, findInsn]
  repeat' split
  all_goals simp_all [setInstructionAtOffset, updateInsns]

def witBFCallSite : BinaryFunctionModel :=
  ⟨["f"], "f", [⟨[], [], none, true, 0, 0, 0, 0⟩], [0], [], 0, 7, none, 0, [], none, false⟩

def witStCall : ParseState := ⟨witBFCallSite, 0, 0, 0, 0, 0⟩

def witCsi : CallSiteInfo := ⟨0, 0, 0, 3, 1⟩

/-- Witness for C7 at a concrete call-site entry that fails validation
(offset 0 against a block of original size 0): the tuple is still
appended, the counter is incremented, and the instructions are
untouched. -/
theorem c7_witness :
    (processCallSite witCtx 0 witStCall witCsi).bf.callSites
      = witStCall.bf.callSites
        ++ [⟨resolveCalleeSymbol witCtx witCsi, witCsi.count, witCsi.mispreds, witCsi.offset⟩]
    ∧ (processCallSite witCtx 0 witStCall witCsi).mismatchedCalls
      = witStCall.mismatchedCalls + (if callSiteBad witStCall.bf 0 witCsi then 1 else 0)
    ∧ (processCallSite witCtx 0 witStCall witCsi).bf.insns = witStCall.bf.insns :=
  ⟨(c7_callsite_unconditional_append witCtx 0 witStCall witCsi).1,
    (c7_callsite_unconditional_append witCtx 0 witStCall witCsi).2.1,
    (c7_callsite_unconditional_append witCtx 0 witStCall witCsi).2.2 (by decide)⟩

/-! ## Annotation-bag lemmas for the dispatch claim -/

theorem lookup_append_self (anns : List (String × AnnotVal)) (name : String)
    (v : AnnotVal) (h : anns.lookup name = none) :
    (anns ++ [(name, v)]).lookup name = some v := by
  induction anns with
  | nil => simp [List.lookup]
  | cons p t ih =>
    rcases p with ⟨k, b⟩
    rw [List.lookup_cons] at h
    rw [List.cons_append, List.lookup_cons]
    cases hb : (name == k) with
    | true => simp [hb] at h
    | false => simp only [hb]; exact ih (by simpa [hb] using h)

theorem lookup_replaceAnnot (anns : List (String × AnnotVal)) (name : String)
    (v : AnnotVal) (h : (anns.lookup name).isSome = true) :
    (replaceAnnot anns name v).lookup name = some v := by
  induction anns with
  | nil => simp [List.lookup] at h
  | cons p t ih =>
    rcases p with ⟨k, b⟩
    rw [List.lookup_cons] at h
    unfold replaceAnnot
    by_cases hb : k = name
    · subst hb
      simp [List.lookup_cons]
    · have hb1 : (k == name) = false := by simpa using hb
      have hb2 : (name == k) = false := by simpa using (Ne.symm hb)
      simp only [hb2] at h
      rw [List.map_cons, hb1]
      simp only [Bool.false_eq_true, if_neg, not_false_iff, List.lookup_cons, hb2]
      exact ih h

theorem setAnnotationScalar_present (insn : MCInstModel) (name : String) (v : Nat)
    (h : (findAnnot insn name).isSome = true) :
    (setAnnotationScalar insn name v).1 = insn ∧ (setAnnotationScalar insn name v).2 = true := by
  unfold setAnnotationScalar
  simp [h]

theorem setAnnotationScalar_absent (insn : MCInstModel) (name : String) (v : Nat)
    (h : findAnnot insn name = none) :
    findAnnot (setAnnotationScalar insn name v).1 name = some (AnnotVal.scalar v)
    ∧ (setAnnotationScalar insn name v).2 = false := by
  have h2 : setAnnotationScalar insn name v =
      ({ insn with annotations := insn.annotations ++ [(name, AnnotVal.scalar v)] }, false) := by
    unfold setAnnotationScalar
    simp [h]
  rw [h2]
  exact ⟨lookup_append_self insn.annotations name (AnnotVal.scalar v) h, rfl⟩

theorem addToCallProfile_fresh (insn : MCInstModel) (e : IndirectCallProfileEntry)
    (h : findAnnot insn "CallProfile" = none) :
    findAnnot (addToCallProfile insn e) "CallProfile"
      = some (AnnotVal.callProf [e]) := by
  unfold addToCallProfile
  rw [h]
  exact lookup_append_self insn.annotations "CallProfile" (AnnotVal.callProf [e]) h

theorem addToCallProfile_existing (insn : MCInstModel) (e : IndirectCallProfileEntry)
    (l : List IndirectCallProfileEntry)
    (h : findAnnot insn "CallProfile" = some (AnnotVal.callProf l)) :
    findAnnot (addToCallProfile insn e) "CallProfile"
      = some (AnnotVal.callProf (l ++ [e])) := by
  unfold addToCallProfile
  rw [h]
  exact lookup_replaceAnnot insn.annotations "CallProfile" (AnnotVal.callProf (l ++ [e]))
    (by simp [findAnnot] at h; simp [h])

theorem find_map_update (l : List (Nat × MCInstModel)) (off : Nat)
    (f : MCInstModel → MCInstModel) :
    ((l.map (fun p => if p.1 == off then (p.1, f p.2) else p)).find?
        (fun p => p.1 == off)).map (fun p => p.2)
      = ((l.find? (fun p => p.1 == off)).map (fun p => p.2)).map f := by
  induction l with
  | nil => simp
  | cons p t ih =>
    by_cases h : (p.1 == off) = true
    · rw [List.map_cons, if_pos h, List.find?_cons_of_pos _ (by simpa using h),
        show List.find? (fun q => q.1 == off) (p :: t) = some p from
          List.find?_cons_of_pos _ h]
      simp
    · have h' : (p.1 == off) = false := by simpa using h
      rw [List.map_cons, if_neg (by simp [h']), List.find?_cons_of_neg _ (by simp [h']),
        show List.find? (fun q => q.1 == off) (p :: t)
            = List.find? (fun q => q.1 == off) t from
          List.find?_cons_of_neg _ (by simp [h'])]
      exact ih

theorem findInsn_updateInsns (l : List (Nat × MCInstModel)) (off : Nat)
    (f : MCInstModel → MCInstModel) :
    findInsn (updateInsns l off f) off = (findInsn l off).map f := by
  unfold findInsn updateInsns
  exact find_map_update l off f

theorem instructionAtOffset_setSame (bf : BinaryFunctionModel) (off : Nat)
    (f : MCInstModel → MCInstModel) :
    instructionAtOffset (setInstructionAtOffset bf off f) off
      = (instructionAtOffset bf off).map f :=
  findInsn_updateInsns bf.insns off f

theorem setAnnotationScalar_snd (insn : MCInstModel) (name : String) (v : Nat) :
    (setAnnotationScalar insn name v).2 = (findAnnot insn name).isSome := by
  unfold setAnnotationScalar
  split <;> simp_all

/-! ## C8: call-site annotation dispatch -/

/-- C8: for a validated call-site instruction, an indirect call or
indirect branch gets the entry appended to its "CallProfile" list
annotation (created on first touch); otherwise a conditional tail call
gets the scalars "CTCTakenCount" and "CTCMispredCount"; otherwise the
scalar "Count"; and a scalar annotation already present is left unchanged
with a warning reported instead. -/
theorem c8_annotation_dispatch (ctx : ParseCtx) (bbIdx : Nat) (st : ParseState)
    (csi : CallSiteInfo) (instr : MCInstModel)
    (hoff : csi.offset < (getBlockD st.bf bbIdx).originalSize)
    (hinstr : instructionAtOffset st.bf
        ((getBlockD st.bf bbIdx).inputOffset + csi.offset) = some instr)
    (hkind : instr.isCall = true ∨ instr.isIndirectBranch = true) :
    ((instr.isIndirectCall || instr.isIndirectBranch) = true →
        instructionAtOffset (processCallSite ctx bbIdx st csi).bf
            ((getBlockD st.bf bbIdx).inputOffset + csi.offset)
          = some (addToCallProfile instr
              ⟨resolveCalleeSymbol ctx csi, csi.count, csi.mispreds⟩))
    ∧ ((instr.isIndirectCall || instr.isIndirectBranch) = false →
        instr.isCondTailCall = true →
        instructionAtOffset (processCallSite ctx bbIdx st csi).bf
            ((getBlockD st.bf bbIdx).inputOffset + csi.offset)
          = some (setAnnotationScalar
              (setAnnotationScalar instr "CTCTakenCount" csi.count).1
              "CTCMispredCount" csi.mispreds).1)
    ∧ ((instr.isIndirectCall || instr.isIndirectBranch) = false →
        instr.isCondTailCall = false →
        instructionAtOffset (processCallSite ctx bbIdx st csi).bf
            ((getBlockD st.bf bbIdx).inputOffset + csi.offset)
          = some (setAnnotationScalar instr "Count" csi.count).1
        ∧ (processCallSite ctx bbIdx st csi).dupAnnotWarnings
          = st.dupAnnotWarnings
            + (if (findAnnot instr "Count").isSome then 1 else 0))
    ∧ (∀ insn name v, (findAnnot insn name).isSome = true →
        (setAnnotationScalar insn name v).1 = insn
        ∧ (setAnnotationScalar insn name v).2 = true)
    ∧ (∀ insn name v, findAnnot insn name = none →
        findAnnot (setAnnotationScalar insn name v).1 name
          = some (AnnotVal.scalar v))
    ∧ (findAnnot instr "CallProfile" = none →
        findAnnot (addToCallProfile instr
            ⟨resolveCalleeSymbol ctx csi, csi.count, csi.mispreds⟩) "CallProfile"
          = some (AnnotVal.callProf
              [⟨resolveCalleeSymbol ctx csi, csi.count, csi.mispreds⟩]))
    ∧ (∀ l, findAnnot instr "CallProfile" = some (AnnotVal.callProf l) →
        findAnnot (addToCallProfile instr
            ⟨resolveCalleeSymbol ctx csi, csi.count, csi.mispreds⟩) "CallProfile"
          = some (AnnotVal.callProf
              (l ++ [⟨resolveCalleeSymbol ctx csi, csi.count, csi.mispreds⟩]))) := by
  have hni : (!instr.isCall && !instr.isIndirectBranch) = false := by
    rcases hkind with h | h <;> simp [h]
  refine ⟨?_, ?_, ?_,
    fun insn name v h => setAnnotationScalar_present insn name v h,
    fun insn name v h => (setAnnotationScalar_absent insn name v h).1,
    fun h => addToCallProfile_fresh instr _ h,
    fun l h => addToCallProfile_existing instr _ l h⟩
  · intro hind
    have hoff2 := hoff
    have hinstr2 := hinstr
    unfold processCallSite
    dsimp only [getBlockD, instructionAtOffset] at hoff2 hinstr2 ⊢
    rw [if_neg (not_le.mpr hoff2), hinstr2]
    dsimp only
    rw [hni]
    simp only [Bool.false_eq_true, if_false]
    rw [if_pos hind]
    dsimp only [setInstructionAtOffset]
    rw [findInsn_updateInsns, hinstr2]
    rfl
  · intro hind hctc
    have hoff2 := hoff
    have hinstr2 := hinstr
    unfold processCallSite
    dsimp only [getBlockD, instructionAtOffset] at hoff2 hinstr2 ⊢
    rw [if_neg (not_le.mpr hoff2), hinstr2]
    dsimp only
    rw [hni]
    simp only [Bool.false_eq_true, if_false]
    rw [hind]
    simp only [Bool.false_eq_true, if_false]
    rw [if_pos hctc]
    dsimp only [setInstructionAtOffset]
    rw [findInsn_updateInsns, hinstr2]
    rfl
  · intro hind hctc
    have hoff2 := hoff
    have hinstr2 := hinstr
    unfold processCallSite
    dsimp only [getBlockD, instructionAtOffset] at hoff2 hinstr2 ⊢
    rw [if_neg (not_le.mpr hoff2), hinstr2]
    dsimp only
    rw [hni]
    simp only [Bool.false_eq_true, if_false]
    rw [hind]
    simp only [Bool.false_eq_true, if_false]
    rw [hctc]
    simp only [Bool.false_eq_true, if_false]
    constructor
    · dsimp only [setInstructionAtOffset]
      rw [findInsn_updateInsns, hinstr2]
      rfl
    · dsimp only
      rw [setAnnotationScalar_snd]

def witInstr : MCInstModel := ⟨true, false, false, false, []⟩

def witBFC8 : BinaryFunctionModel :=
  ⟨["f"], "f", [⟨[], [], none, true, 1, 1, 4, 0⟩], [0], [(0, witInstr)],
    0, 7, none, 0, [], none, false⟩

def witStC8 : ParseState := ⟨witBFC8, 0, 0, 0, 0, 0⟩

/-- Witness for C8 at a concrete direct call at offset 0: the scalar
"Count" annotation is written and no duplicate warning is reported. -/
theorem c8_witness :
    instructionAtOffset (processCallSite witCtx 0 witStC8 witCsi).bf
        ((getBlockD witStC8.bf 0).inputOffset + witCsi.offset)
      = some (setAnnotationScalar witInstr "Count" witCsi.count).1
    ∧ (processCallSite witCtx 0 witStC8 witCsi).dupAnnotWarnings
      = witStC8.dupAnnotWarnings
        + (if (findAnnot witInstr "Count").isSome then 1 else 0) :=
  (c8_annotation_dispatch witCtx 0 witStC8 witCsi witInstr (by decide) (by decide)
    (Or.inl rfl)).2.2.1 rfl rfl

/-! ## Branch-info lemmas -/

theorem getD_set_self {α : Type} (l : List α) (i : Nat) (v d : α)
    (h : i < l.length) : (l.set i v).getD i d = v := by
  simp only [List.getD_eq_getElem?_getD, List.getElem?_set]
  simp [h]

theorem getD_set_ne {α : Type} (l : List α) (i j : Nat) (v d : α)
    (h : i ≠ j) : (l.set i v).getD j d = l.getD j d := by
  simp only [List.getD_eq_getElem?_getD, List.getElem?_set]
  simp [h]

theorem getBlockD_setBlock_self (bf : BinaryFunctionModel) (i : Nat)
    (b : BinaryBasicBlockModel) (h : i < bf.blocks.length) :
    getBlockD (setBlock bf i b) i = b := by
  unfold getBlockD setBlock
  exact getD_set_self bf.blocks i b default h

theorem getBlockD_setBlock_ne (bf : BinaryFunctionModel) (i j : Nat)
    (b : BinaryBasicBlockModel) (h : i ≠ j) :
    getBlockD (setBlock bf i b) j = getBlockD bf j := by
  unfold getBlockD setBlock
  exact getD_set_ne bf.blocks i j b default h

theorem getBranchCounts_addBranchInfo_self (bf : BinaryFunctionModel)
    (fromIdx toIdx c m : Nat)
    (h1 : fromIdx < bf.blocks.length)
    (h2 : toIdx ∈ (getBlockD bf fromIdx).succs)
    (h3 : (getBlockD bf fromIdx).branchInfo.length
            = (getBlockD bf fromIdx).succs.length) :
    getBranchCounts (addBranchInfo bf fromIdx toIdx c m) fromIdx toIdx
      = ((getBranchCounts bf fromIdx toIdx).1 + c,
         (getBranchCounts bf fromIdx toIdx).2 + m) := by
  unfold getBranchCounts addBranchInfo
  dsimp only
  rw [getBlockD_setBlock_self bf fromIdx _ h1]
  dsimp only
  have hpos : (getBlockD bf fromIdx).succs.indexOf toIdx
      < (getBlockD bf fromIdx).branchInfo.length := by
    rw [h3]
    exact List.indexOf_lt_length.mpr h2
  rw [getD_set_self _ _ _ _ hpos]

theorem getBranchCounts_addBranchInfo_ne (bf : BinaryFunctionModel)
    (fromIdx toIdx c m a b : Nat) (h : fromIdx ≠ a) :
    getBranchCounts (addBranchInfo bf fromIdx toIdx c m) a b
      = getBranchCounts bf a b := by
  unfold getBranchCounts addBranchInfo
  dsimp only
  rw [getBlockD_setBlock_ne bf fromIdx a _ h]

/-! ## C5: the pass-through heuristic -/

theorem blocks_length_addBranchInfo (bf : BinaryFunctionModel)
    (fromIdx toIdx c m : Nat) :
    (addBranchInfo bf fromIdx toIdx c m).blocks.length = bf.blocks.length := by
  unfold addBranchInfo setBlock
  dsimp only
  rw [List.length_set]

/-- The two branch-info additions of the pass-through branch: (c, m) onto
FT → ToBB, then — after ToBB is redirected to FT — onto BB → FT. -/
def passThroughApply (bf : BinaryFunctionModel) (bbIdx ftIdx toIdx c m : Nat) :
    BinaryFunctionModel :=
  addBranchInfo (addBranchInfo bf ftIdx toIdx c m) bbIdx ftIdx c m

/-- C5: when a profiled successor entry names an in-range block ToBB that
is not a direct successor of BB, but BB's false-branch conditional
successor FT exists with exactly one successor, equal to ToBB, then
(Count, Mispreds) is added onto the edge FT → ToBB without incrementing
the edge-mismatch counter, and — by redirecting ToBB to FT — also onto
the branch info of BB → FT; if the heuristic's conditions fail, the
edge-mismatch counter is incremented and the entry is skipped. -/
theorem c5_passthrough (order : List Nat) (bbIdx : Nat) (st : ParseState)
    (si : SuccessorInfo)
    (hin : si.index < order.length)
    (hnot : (getBlockD st.bf bbIdx).succs.contains (order.getD si.index 0) = false) :
    (∀ ftIdx,
      getConditionalSuccessorFalse (getBlockD st.bf bbIdx) = some ftIdx →
      (getBlockD st.bf ftIdx).succs = [order.getD si.index 0] →
      bbIdx < st.bf.blocks.length →
      ftIdx < st.bf.blocks.length →
      (getBlockD st.bf ftIdx).branchInfo.length
        = (getBlockD st.bf ftIdx).succs.length →
      (getBlockD st.bf bbIdx).branchInfo.length
        = (getBlockD st.bf bbIdx).succs.length →
        (processSuccessor order bbIdx st si).mismatchedEdges = st.mismatchedEdges
        ∧ getBranchCounts (processSuccessor order bbIdx st si).bf ftIdx
              (order.getD si.index 0)
          = ((getBranchCounts st.bf ftIdx (order.getD si.index 0)).1 + si.count,
             (getBranchCounts st.bf ftIdx (order.getD si.index 0)).2 + si.mispreds)
        ∧ getBranchCounts (processSuccessor order bbIdx st si).bf bbIdx ftIdx
          = ((getBranchCounts st.bf bbIdx ftIdx).1 + si.count,
             (getBranchCounts st.bf bbIdx ftIdx).2 + si.mispreds))
    ∧ ((∀ ftIdx,
          getConditionalSuccessorFalse (getBlockD st.bf bbIdx) = some ftIdx →
          ¬((getBlockD st.bf ftIdx).succs.length = 1
            ∧ (getBlockD st.bf ftIdx).succs.contains (order.getD si.index 0) = true)) →
        processSuccessor order bbIdx st si
          = { st with mismatchedEdges := st.mismatchedEdges + 1 }) := by
  constructor
  · intro ftIdx hft hsucc hbb hftlt hlenft hlenbb
    have h2len : (getBlockD st.bf bbIdx).succs.length = 2 := by
      unfold getConditionalSuccessorFalse at hft
      by_cases hc : ((getBlockD st.bf bbIdx).succs.length == 2) = true
      · simpa using hc
      · rw [if_neg hc] at hft
        cases hft
    have hft2 : (getBlockD st.bf bbIdx).succs.getD 1 0 = ftIdx := by
      unfold getConditionalSuccessorFalse at hft
      rw [if_pos (by simpa using h2len)] at hft
      exact Option.some.inj hft
    have hbbne : bbIdx ≠ ftIdx := by
      intro he
      rw [he, hsucc] at h2len
      simp at h2len
    have hftmem : ftIdx ∈ (getBlockD st.bf bbIdx).succs := by
      have h1lt : 1 < (getBlockD st.bf bbIdx).succs.length := by omega
      rw [List.getD_eq_getElem?_getD, List.getElem?_eq_getElem h1lt] at hft2
      simp only [Option.getD_some] at hft2
      rw [← hft2]
      exact List.getElem_mem h1lt
    have htomem : (order.getD si.index 0) ∈ (getBlockD st.bf ftIdx).succs := by
      rw [hsucc]
      exact List.mem_singleton.mpr rfl
    have hcond : ((getBlockD st.bf ftIdx).succs.length == 1
        && (getBlockD st.bf ftIdx).succs.contains (order.getD si.index 0)) = true := by
      simp [hsucc]
    have hres : processSuccessor order bbIdx st si
        = { st with bf := passThroughApply st.bf bbIdx ftIdx (order.getD si.index 0) si.count si.mispreds } := by
      unfold processSuccessor passThroughApply
      rw [if_neg (not_le.mpr hin)]
      dsimp only
      rw [hnot]
      simp only [Bool.false_eq_true, if_false]
      rw [hft]
      dsimp only
      rw [if_pos hcond]
    have hmid : getBlockD (addBranchInfo st.bf ftIdx (order.getD si.index 0) si.count si.mispreds) bbIdx = getBlockD st.bf bbIdx := by
      unfold addBranchInfo
      dsimp only
      exact getBlockD_setBlock_ne _ _ _ _ (Ne.symm hbbne)
    rw [hres]
    dsimp only [passThroughApply]
    refine ⟨rfl, ?_, ?_⟩
    · rw [getBranchCounts_addBranchInfo_ne _ bbIdx ftIdx si.count si.mispreds ftIdx (order.getD si.index 0) hbbne]
      exact getBranchCounts_addBranchInfo_self st.bf ftIdx (order.getD si.index 0) si.count si.mispreds hftlt htomem hlenft
    · rw [getBranchCounts_addBranchInfo_self _ bbIdx ftIdx si.count si.mispreds (by rw [blocks_length_addBranchInfo]; exact hbb) (by rw [hmid]; exact hftmem) (by rw [hmid]; exact hlenbb),
        getBranchCounts_addBranchInfo_ne st.bf ftIdx (order.getD si.index 0) si.count si.mispreds bbIdx ftIdx (Ne.symm hbbne)]
  · intro hfail
    unfold processSuccessor
    rw [if_neg (not_le.mpr hin)]
    dsimp only
    rw [hnot]
    simp only [Bool.false_eq_true, if_false]
    cases hft : getConditionalSuccessorFalse (getBlockD st.bf bbIdx) with
    | none => rfl
    | some ftIdx =>
      have h := hfail ftIdx hft
      have hcond : ((getBlockD st.bf ftIdx).succs.length == 1
          && (getBlockD st.bf ftIdx).succs.contains (order.getD si.index 0)) = false := by
        cases hl : ((getBlockD st.bf ftIdx).succs.length == 1) with
        | false => simp [hl]
        | true =>
          cases hc2 : ((getBlockD st.bf ftIdx).succs.contains (order.getD si.index 0)) with
          | false => simp [hl, hc2]
          | true => exact absurd ⟨by simpa using hl, hc2⟩ h
      dsimp only
      rw [hcond]
      simp

def witBFPT : BinaryFunctionModel :=
  ⟨["g"], "g",
    [⟨[1, 2], [(0, 0), (0, 0)], none, true, 1, 0, 4, 0⟩,
     ⟨[], [], none, false, 1, 0, 4, 4⟩,
     ⟨[3], [(0, 0)], none, false, 1, 0, 4, 8⟩,
     ⟨[], [], none, false, 1, 0, 4, 12⟩],
    [], [], 0, 7, none, 0, [], none, false⟩

def witStPT : ParseState := ⟨witBFPT, 0, 0, 0, 0, 0⟩

/-- Witness for C5 on a concrete CFG 0 → {1, 2}, 2 → {3}: the profiled
edge 0 → 3 is attributed through the pass-through block 2 with no
edge-mismatch, and a profiled edge 2 → 0 with no heuristic match counts
one mismatch. -/
theorem c5_witness :
    ((processSuccessor [0, 1, 2, 3] 0 witStPT ⟨3, 40, 7⟩).mismatchedEdges
        = witStPT.mismatchedEdges
      ∧ getBranchCounts (processSuccessor [0, 1, 2, 3] 0 witStPT ⟨3, 40, 7⟩).bf 2
            ([0, 1, 2, 3].getD 3 0)
        = ((getBranchCounts witStPT.bf 2 ([0, 1, 2, 3].getD 3 0)).1 + 40,
           (getBranchCounts witStPT.bf 2 ([0, 1, 2, 3].getD 3 0)).2 + 7)
      ∧ getBranchCounts (processSuccessor [0, 1, 2, 3] 0 witStPT ⟨3, 40, 7⟩).bf 0 2
        = ((getBranchCounts witStPT.bf 0 2).1 + 40,
           (getBranchCounts witStPT.bf 0 2).2 + 7))
    ∧ processSuccessor [0, 1, 2, 3] 2 witStPT ⟨0, 1, 1⟩
      = { witStPT with mismatchedEdges := witStPT.mismatchedEdges + 1 } :=
  ⟨(c5_passthrough [0, 1, 2, 3] 0 witStPT ⟨3, 40, 7⟩ (by decide) (by decide)).1 2
      (by decide) (by decide) (by decide) (by decide) (by decide) (by decide),
    (c5_passthrough [0, 1, 2, 3] 2 witStPT ⟨0, 1, 1⟩ (by decide) (by decide)).2
      (fun ftIdx h => Option.noConfusion h)⟩

/-! ## C3: sample mode -/

/-- The fields of a basic block other than its execution count — the
part of a block that sample-mode propagation never writes. -/
def bview (b : BinaryBasicBlockModel) :
    List Nat × List (Nat × Nat) × Bool × Nat × Nat × Nat × Nat :=
  (b.succs, b.branchInfo, b.entryPoint, b.numNonPseudos, b.numCalls,
    b.originalSize, b.inputOffset)

theorem bview_setExec (blocks : List BinaryBasicBlockModel) (i : Nat)
    (v : Option Nat) :
    ((blocks.set i { blocks.getD i default with execCount := v }).map bview)
      = blocks.map bview := by
  induction blocks generalizing i with
  | nil => rfl
  | cons b t ih =>
    cases i with
    | zero => rfl
    | succ n =>
      simp only [List.getD_cons_succ, List.map_cons, List.set_cons_succ]
      rw [ih n]

theorem map_bview_setBlockExec (bf : BinaryFunctionModel) (i : Nat)
    (v : Option Nat) :
    (setBlockExec bf i v).blocks.map bview = bf.blocks.map bview := by
  unfold setBlockExec setBlock getBlockD
  dsimp only
  exact bview_setExec bf.blocks i v

theorem length_setBlockExec (bf : BinaryFunctionModel) (i : Nat)
    (v : Option Nat) :
    (setBlockExec bf i v).blocks.length = bf.blocks.length := by
  unfold setBlockExec setBlock
  dsimp only
  rw [List.length_set]

theorem exec_setBlockExec_self (bf : BinaryFunctionModel) (i : Nat)
    (v : Option Nat) (h : i < bf.blocks.length) :
    (getBlockD (setBlockExec bf i v) i).execCount = v := by
  unfold setBlockExec
  rw [getBlockD_setBlock_self _ _ _ h]

theorem getBlockD_setBlockExec_ne (bf : BinaryFunctionModel) (i j : Nat)
    (v : Option Nat) (h : i ≠ j) :
    getBlockD (setBlockExec bf i v) j = getBlockD bf j := by
  unfold setBlockExec
  exact getBlockD_setBlock_ne _ _ _ _ h

theorem bview_getD_congr (bl bl' : List BinaryBasicBlockModel)
    (h : bl.map bview = bl'.map bview) (s : Nat) :
    bview (bl.getD s default) = bview (bl'.getD s default) := by
  have hl : bl.length = bl'.length := by
    have := congrArg List.length h
    simpa using this
  by_cases hs : s < bl.length
  · have := congrArg (fun l => l.getD s (bview default)) h
    simpa [List.getD_map] using this
  · rw [List.getD_eq_default _ _ (by omega), List.getD_eq_default _ _ (by omega)]

theorem bview_getBlockD_congr (bf bf' : BinaryFunctionModel)
    (h : bf.blocks.map bview = bf'.blocks.map bview) (s : Nat) :
    bview (getBlockD bf s) = bview (getBlockD bf' s) :=
  bview_getD_congr bf.blocks bf'.blocks h s

theorem bview_components (b b' : BinaryBasicBlockModel)
    (h : bview b = bview b') :
    b.entryPoint = b'.entryPoint ∧ b.numNonPseudos = b'.numNonPseudos
      ∧ b.numCalls = b'.numCalls := by
  unfold bview at h
  simp only [Prod.mk.injEq] at h
  exact ⟨h.2.2.1, h.2.2.2.1, h.2.2.2.2.1⟩

theorem normalizedSampleCount_congr (ctx : ParseCtx)
    (b b' : BinaryBasicBlockModel) (e : Nat) (h : bview b = bview b') :
    normalizedSampleCount ctx b e = normalizedSampleCount ctx b' e := by
  obtain ⟨_, h2, h3⟩ := bview_components b b' h
  unfold normalizedSampleCount
  rw [h2, h3]

/-- The expected whole-function sample total: the normalized sample
counts of the in-range, nonzero-event entry blocks. -/
def expectedSampleSum (ctx : ParseCtx) (bl : List BinaryBasicBlockModel)
    (order : List Nat) (l : List BinaryBasicBlockProfile) : Nat :=
  (l.map (fun yb =>
    if yb.index < order.length then
      if yb.eventCount == 0 then 0
      else if (bl.getD (order.getD yb.index 0) default).entryPoint then
        normalizedSampleCount ctx (bl.getD (order.getD yb.index 0) default)
          yb.eventCount
      else 0
    else 0)).sum

theorem expectedSampleSum_congr (ctx : ParseCtx) (order : List Nat)
    (l : List BinaryBasicBlockProfile) (bl bl' : List BinaryBasicBlockModel)
    (h : bl.map bview = bl'.map bview) :
    expectedSampleSum ctx bl order l = expectedSampleSum ctx bl' order l := by
  unfold expectedSampleSum
  congr 1
  refine List.map_congr_left (fun yb _ => ?_)
  have hb := bview_getD_congr bl bl' h (order.getD yb.index 0)
  obtain ⟨h1, _, _⟩ := bview_components _ _ hb
  rw [h1, normalizedSampleCount_congr ctx _ _ yb.eventCount hb]

/-- The shape of one sample-mode iteration of the per-block loop. -/
theorem processBlock_sample_eq (ctx : ParseCtx) (order : List Nat)
    (st : ParseState) (yb : BinaryBasicBlockProfile)
    (hS : isSampleProfile ctx.header = true) :
    processBlock ctx order st yb =
      if yb.index ≥ order.length then
        { st with mismatchedBlocks := st.mismatchedBlocks + 1 }
      else if yb.eventCount == 0 then
        { st with bf := setBlockExec st.bf (order.getD yb.index 0) (some 0) }
      else if (getBlockD st.bf (order.getD yb.index 0)).entryPoint then
        { st with
          bf := setBlockExec st.bf (order.getD yb.index 0)
            (some (normalizedSampleCount ctx
              (getBlockD st.bf (order.getD yb.index 0)) yb.eventCount)),
          functionExecutionCount := st.functionExecutionCount
            + normalizedSampleCount ctx
                (getBlockD st.bf (order.getD yb.index 0)) yb.eventCount }
      else
        { st with
          bf := setBlockExec st.bf (order.getD yb.index 0)
            (some (normalizedSampleCount ctx
              (getBlockD st.bf (order.getD yb.index 0)) yb.eventCount)) } := by
  unfold processBlock
  rw [hS]
  simp only [if_true]

theorem getD_mem_of_lt (order : List Nat) (i : Nat) (h : i < order.length) :
    order.getD i 0 ∈ order := by
  rw [List.getD_eq_getElem?_getD, List.getElem?_eq_getElem h]
  exact List.getElem_mem h

theorem nodup_getD_ne (order : List Nat) (h : order.Nodup) (a b : Nat)
    (ha : a < order.length) (hb : b < order.length) (hne : a ≠ b) :
    order.getD a 0 ≠ order.getD b 0 := by
  rw [List.getD_eq_getElem?_getD, List.getElem?_eq_getElem ha,
    List.getD_eq_getElem?_getD, List.getElem?_eq_getElem hb]
  simp only [Option.getD_some]
  intro he
  exact hne ((List.Nodup.getElem_inj_iff h).mp he)

theorem processBlock_sample_views (ctx : ParseCtx) (order : List Nat)
    (st : ParseState) (yb : BinaryBasicBlockProfile)
    (hS : isSampleProfile ctx.header = true) :
    (processBlock ctx order st yb).bf.blocks.map bview = st.bf.blocks.map bview
    ∧ (processBlock ctx order st yb).bf.callSites = st.bf.callSites
    ∧ (processBlock ctx order st yb).bf.insns = st.bf.insns := by
  rw [processBlock_sample_eq ctx order st yb hS]
  repeat' split
  all_goals refine ⟨?_, rfl, rfl⟩
  all_goals first
    | rfl
    | exact map_bview_setBlockExec _ _ _

theorem sampleFold_views (ctx : ParseCtx) (order : List Nat)
    (hS : isSampleProfile ctx.header = true) :
    ∀ (l : List BinaryBasicBlockProfile) (st : ParseState),
      (l.foldl (processBlock ctx order) st).bf.blocks.map bview
          = st.bf.blocks.map bview
      ∧ (l.foldl (processBlock ctx order) st).bf.callSites = st.bf.callSites
      ∧ (l.foldl (processBlock ctx order) st).bf.insns = st.bf.insns := by
  intro l
  induction l with
  | nil => intro st; exact ⟨rfl, rfl, rfl⟩
  | cons yb t ih =>
    intro st
    rw [List.foldl_cons]
    obtain ⟨i1, i2, i3⟩ := ih (processBlock ctx order st yb)
    obtain ⟨s1, s2, s3⟩ := processBlock_sample_views ctx order st yb hS
    exact ⟨by rw [i1, s1], by rw [i2, s2], by rw [i3, s3]⟩

theorem processBlock_sample_fec (ctx : ParseCtx) (order : List Nat)
    (st : ParseState) (yb : BinaryBasicBlockProfile)
    (hS : isSampleProfile ctx.header = true) :
    (processBlock ctx order st yb).functionExecutionCount
      = st.functionExecutionCount
        + (if yb.index < order.length then
             if yb.eventCount == 0 then 0
             else if (st.bf.blocks.getD (order.getD yb.index 0) default).entryPoint then
               normalizedSampleCount ctx
                 (st.bf.blocks.getD (order.getD yb.index 0) default) yb.eventCount
             else 0
           else 0) := by
  rw [processBlock_sample_eq ctx order st yb hS]
  simp only [getBlockD]
  by_cases h1 : yb.index ≥ order.length
  · have h1' : ¬(yb.index < order.length) := by omega
    rw [if_pos h1]
    dsimp only
    rw [if_neg h1']
    omega
  · have h1' : yb.index < order.length := by omega
    rw [if_neg h1]
    by_cases h2 : (yb.eventCount == 0) = true
    · rw [if_pos h2]
      dsimp only
      rw [if_pos h1', if_pos h2]
      omega
    · rw [if_neg h2]
      by_cases h3 : (st.bf.blocks.getD (order.getD yb.index 0) default).entryPoint = true
      · rw [if_pos h3]
        dsimp only
        rw [if_pos h1', if_neg h2, if_pos h3]
      · rw [if_neg h3]
        dsimp only
        rw [if_pos h1', if_neg h2, if_neg h3]
        omega

theorem sampleFold_fec (ctx : ParseCtx) (order : List Nat)
    (hS : isSampleProfile ctx.header = true) :
    ∀ (l : List BinaryBasicBlockProfile) (st : ParseState),
      (l.foldl (processBlock ctx order) st).functionExecutionCount
        = st.functionExecutionCount + expectedSampleSum ctx st.bf.blocks order l := by
  intro l
  induction l with
  | nil => intro st; simp [expectedSampleSum]
  | cons yb t ih =>
    intro st
    rw [List.foldl_cons, ih (processBlock ctx order st yb),
      expectedSampleSum_congr ctx order t _ _
        (processBlock_sample_views ctx order st yb hS).1,
      processBlock_sample_fec ctx order st yb hS]
    unfold expectedSampleSum
    rw [List.map_cons, List.sum_cons, Nat.add_assoc]

theorem sampleFold_untouched (ctx : ParseCtx) (order : List Nat)
    (hS : isSampleProfile ctx.header = true) :
    ∀ (l : List BinaryBasicBlockProfile) (st : ParseState) (s : Nat),
      (∀ z ∈ l, z.index < order.length → order.getD z.index 0 ≠ s) →
      (getBlockD (l.foldl (processBlock ctx order) st).bf s).execCount
        = (getBlockD st.bf s).execCount := by
  intro l
  induction l with
  | nil => intro st s _; rfl
  | cons yb t ih =>
    intro st s hz
    rw [List.foldl_cons,
      ih (processBlock ctx order st yb) s
        (fun z hm hlt => hz z (List.mem_cons_of_mem _ hm) hlt),
      processBlock_sample_eq ctx order st yb hS]
    by_cases h1 : yb.index ≥ order.length
    · rw [if_pos h1]
    · rw [if_neg h1]
      have hne : order.getD yb.index 0 ≠ s :=
        hz yb (List.mem_cons_self _ _) (by omega)
      repeat' split
      all_goals rw [show ({ st with bf := setBlockExec st.bf (order.getD yb.index 0) _ } : ParseState).bf = setBlockExec st.bf (order.getD yb.index 0) _ from rfl]
      all_goals rw [getBlockD_setBlockExec_ne _ _ _ _ hne]

theorem sampleFold_slot (ctx : ParseCtx) (order : List Nat)
    (hS : isSampleProfile ctx.header = true) (hordN : order.Nodup) :
    ∀ (l : List BinaryBasicBlockProfile) (st : ParseState),
      (l.map (fun z => z.index)).Nodup →
      (∀ x ∈ order, x < st.bf.blocks.length) →
      ∀ yb ∈ l, yb.index < order.length →
        (getBlockD (l.foldl (processBlock ctx order) st).bf
            (order.getD yb.index 0)).execCount
          = some (if yb.eventCount == 0 then 0
                  else normalizedSampleCount ctx
                    (getBlockD st.bf (order.getD yb.index 0)) yb.eventCount) := by
  intro l
  induction l with
  | nil => intro st _ _ yb hm; cases hm
  | cons z t ih =>
    intro st hnod hval yb hm hlt
    rw [List.foldl_cons]
    have hnodc : (∀ x ∈ t, ¬x.index = z.index)
        ∧ (t.map (fun w => w.index)).Nodup := by simpa using hnod
    rcases List.mem_cons.mp hm with rfl | hmt
    · have hnoT : ∀ w ∈ t, w.index < order.length →
          order.getD w.index 0 ≠ order.getD yb.index 0 := by
        intro w hw hwlt
        have hci : w.index ≠ yb.index := fun hc => hnodc.1 w hw hc
        exact nodup_getD_ne order hordN w.index yb.index hwlt hlt hci
      have hnlt : ¬(yb.index ≥ order.length) := by omega
      rw [sampleFold_untouched ctx order hS t _ _ hnoT,
        processBlock_sample_eq ctx order st yb hS, if_neg hnlt]
      have hslotlt : order.getD yb.index 0 < st.bf.blocks.length :=
        hval _ (getD_mem_of_lt order yb.index hlt)
      by_cases h2 : (yb.eventCount == 0) = true
      · rw [if_pos h2, if_pos h2]
        dsimp only
        exact exec_setBlockExec_self st.bf _ _ hslotlt
      · rw [if_neg h2, if_neg h2]
        by_cases h3 : (getBlockD st.bf (order.getD yb.index 0)).entryPoint = true
        · rw [if_pos h3]
          dsimp only
          exact exec_setBlockExec_self st.bf _ _ hslotlt
        · rw [if_neg h3]
          dsimp only
          exact exec_setBlockExec_self st.bf _ _ hslotlt
    · have hviews := (processBlock_sample_views ctx order st z hS).1
      have hlen : (processBlock ctx order st z).bf.blocks.length
          = st.bf.blocks.length := by
        have := congrArg List.length hviews
        simpa using this
      have hv2 : ∀ x ∈ order, x < (processBlock ctx order st z).bf.blocks.length := by
        intro x hx
        rw [hlen]
        exact hval x hx
      rw [ih (processBlock ctx order st z) hnodc.2 hv2 yb hmt hlt]
      by_cases h2 : (yb.eventCount == 0) = true
      · rw [if_pos h2, if_pos h2]
      · rw [if_neg h2, if_neg h2,
          normalizedSampleCount_congr ctx _ _ yb.eventCount
            (bview_getBlockD_congr _ _ hviews (order.getD yb.index 0))]

theorem map_bview_clear (blocks : List BinaryBasicBlockModel) :
    ((blocks.map (fun bb =>
        if bb.execCount = none then { bb with execCount := some 0 } else bb)).map bview)
      = blocks.map bview := by
  rw [List.map_map]
  refine List.map_congr_left (fun b _ => ?_)
  by_cases h : b.execCount = none <;> simp [Function.comp, h, bview]

theorem exec_clear_getD (blocks : List BinaryBasicBlockModel) (s v : Nat)
    (h : (blocks.getD s default).execCount = some v) :
    ((blocks.map (fun bb =>
        if bb.execCount = none then { bb with execCount := some 0 } else bb)).getD
          s default).execCount = some v := by
  by_cases hs : s < blocks.length
  · rw [List.getD_eq_getElem?_getD, List.getElem?_eq_getElem hs] at h
    simp only [Option.getD_some] at h
    rw [List.getD_eq_getElem?_getD, List.getElem?_map, List.getElem?_eq_getElem hs]
    simp [h]
  · rw [List.getD_eq_default _ _ (by omega)] at h
    cases h

/-- C3: in sample mode parseFunctionProfile writes no branch or call-site
annotations at all (call sites, instructions, and every block field other
than the execution count are untouched); every profiled block with an
in-range index gets execution count 0 when EventCount is 0, and otherwise
EventCount × 1000 divided by the configured normalizer; and the entry
blocks' samples are summed, the sum overwriting the function's
ExecutionCount at the end. -/
theorem c3_sample_mode (ctx : ParseCtx) (bf : BinaryFunctionModel)
    (ybf : BinaryFunctionProfile)
    (hS : isSampleProfile ctx.header = true)
    (hne : bf.blocks.isEmpty = false)
    (hordN : (blockOrder bf ctx.header.isDFSOrder).Nodup)
    (hval : ∀ x ∈ blockOrder bf ctx.header.isDFSOrder, x < bf.blocks.length)
    (hidx : (ybf.blocks.map (fun z => z.index)).Nodup) :
    (parseFunctionProfile ctx bf ybf).bf.callSites = bf.callSites
    ∧ (parseFunctionProfile ctx bf ybf).bf.insns = bf.insns
    ∧ (parseFunctionProfile ctx bf ybf).bf.blocks.map bview = bf.blocks.map bview
    ∧ (parseFunctionProfile ctx bf ybf).bf.execCount
        = some (expectedSampleSum ctx bf.blocks
            (blockOrder bf ctx.header.isDFSOrder) ybf.blocks)
    ∧ ∀ yb ∈ ybf.blocks, yb.index < (blockOrder bf ctx.header.isDFSOrder).length →
        (getBlockD (parseFunctionProfile ctx bf ybf).bf
            ((blockOrder bf ctx.header.isDFSOrder).getD yb.index 0)).execCount
          = some (if yb.eventCount == 0 then 0
                  else normalizedSampleCount ctx
                    (getBlockD bf
                      ((blockOrder bf ctx.header.isDFSOrder).getD yb.index 0))
                    yb.eventCount) := by
  unfold parseFunctionProfile
  dsimp only
  rw [hne]
  simp only [Bool.false_eq_true, if_false]
  by_cases hh : (!ctx.opts.ignoreHash && bf.storedHash == 0) = true
  · rw [if_pos hh]
    simp only [hS, eq_self_iff_true, if_true]
    refine ⟨?_, ?_, ?_, ?_, ?_⟩
    · rw [apply_ite BinaryFunctionModel.callSites]
      dsimp only
      rw [ite_self]
      exact (sampleFold_views ctx _ hS ybf.blocks _).2.1
    · rw [apply_ite BinaryFunctionModel.insns]
      dsimp only
      rw [ite_self]
      exact (sampleFold_views ctx _ hS ybf.blocks _).2.2
    · rw [apply_ite (fun x : BinaryFunctionModel => List.map bview x.blocks)]
      dsimp only
      rw [ite_self, map_bview_clear]
      exact (sampleFold_views ctx _ hS ybf.blocks _).1
    · rw [apply_ite BinaryFunctionModel.execCount]
      dsimp only
      rw [ite_self, sampleFold_fec ctx _ hS ybf.blocks _]
      dsimp only
      rw [Nat.zero_add]
      rfl
    · intro yb hm hlt
      rw [apply_ite (fun x : BinaryFunctionModel => (getBlockD x
        ((blockOrder bf ctx.header.isDFSOrder).getD yb.index 0)).execCount)]
      dsimp only [getBlockD]
      rw [ite_self]
      refine exec_clear_getD _ _ _ ?_
      exact sampleFold_slot ctx _ hS hordN ybf.blocks _ hidx hval yb hm hlt
  · rw [if_neg hh]
    simp only [hS, eq_self_iff_true, if_true]
    refine ⟨?_, ?_, ?_, ?_, ?_⟩
    · rw [apply_ite BinaryFunctionModel.callSites]
      dsimp only
      rw [ite_self]
      exact (sampleFold_views ctx _ hS ybf.blocks _).2.1
    · rw [apply_ite BinaryFunctionModel.insns]
      dsimp only
      rw [ite_self]
      exact (sampleFold_views ctx _ hS ybf.blocks _).2.2
    · rw [apply_ite (fun x : BinaryFunctionModel => List.map bview x.blocks)]
      dsimp only
      rw [ite_self, map_bview_clear]
      exact (sampleFold_views ctx _ hS ybf.blocks _).1
    · rw [apply_ite BinaryFunctionModel.execCount]
      dsimp only
      rw [ite_self, sampleFold_fec ctx _ hS ybf.blocks _]
      dsimp only
      rw [Nat.zero_add]
      rfl
    · intro yb hm hlt
      rw [apply_ite (fun x : BinaryFunctionModel => (getBlockD x
        ((blockOrder bf ctx.header.isDFSOrder).getD yb.index 0)).execCount)]
      dsimp only [getBlockD]
      rw [ite_self]
      refine exec_clear_getD _ _ _ ?_
      exact sampleFold_slot ctx _ hS hordN ybf.blocks _ hidx hval yb hm hlt

def witHdrS : BinaryProfileHeader := ⟨1, 2, "cycles", HashFunctionKind.stdHash, false⟩

def witCtxS : ParseCtx := ⟨witHdrS, witOpts, witOracles, [], true, false⟩

def witBFS : BinaryFunctionModel :=
  ⟨["f"], "f",
    [⟨[1, 2], [(0, 0), (0, 0)], none, true, 2, 0, 8, 0⟩,
     ⟨[], [], none, false, 2, 0, 8, 8⟩,
     ⟨[], [], none, false, 2, 0, 8, 16⟩],
    [0, 1, 2], [], 7, 7, none, 0, [], none, false⟩

def witYbfS : BinaryFunctionProfile :=
  ⟨1, "f", 7, 3, 5, [⟨0, 0, 5, [], []⟩, ⟨1, 0, 0, [], []⟩]⟩

/-- Witness for C3 on a concrete 3-block function with event "cycles"
samples: the entry block gets 5 × 1000 / 2 = 2500, the zero-event block
gets 0, nothing else is touched, and the function's count becomes the
entry sum. -/
theorem c3_witness :
    (parseFunctionProfile witCtxS witBFS witYbfS).bf.callSites = witBFS.callSites
    ∧ (parseFunctionProfile witCtxS witBFS witYbfS).bf.insns = witBFS.insns
    ∧ (parseFunctionProfile witCtxS witBFS witYbfS).bf.blocks.map bview
        = witBFS.blocks.map bview
    ∧ (parseFunctionProfile witCtxS witBFS witYbfS).bf.execCount
        = some (expectedSampleSum witCtxS witBFS.blocks
            (blockOrder witBFS witCtxS.header.isDFSOrder) witYbfS.blocks)
    ∧ ∀ yb ∈ witYbfS.blocks,
        yb.index < (blockOrder witBFS witCtxS.header.isDFSOrder).length →
        (getBlockD (parseFunctionProfile witCtxS witBFS witYbfS).bf
            ((blockOrder witBFS witCtxS.header.isDFSOrder).getD yb.index 0)).execCount
          = some (if yb.eventCount == 0 then 0
                  else normalizedSampleCount witCtxS
                    (getBlockD witBFS
                      ((blockOrder witBFS witCtxS.header.isDFSOrder).getD yb.index 0))
                    yb.eventCount) :=
  c3_sample_mode witCtxS witBFS witYbfS (by decide) (by decide) (by decide)
    (by decide) (by decide)

/-! ## C6: exact-name stage claims before the hash-only stage -/

theorem getD_set_split {α : Type} (l : List α) (i a : Nat) (v d : α) :
    (l.set i v).getD a d = if i = a ∧ i < l.length then v else l.getD a d := by
  simp only [List.getD_eq_getElem?_getD, List.getElem?_set]
  by_cases h1 : i = a
  · subst h1
    by_cases h2 : i < l.length
    · simp [h2]
    · have : l[i]? = none := List.getElem?_eq_none (by omega)
      simp [h2, this]
  · simp [h1]

/-- The hash-and-size view of a binary function: the two fields
profileMatches consults. -/
def hview (f : BinaryFunctionModel) : Nat × Nat :=
  (f.storedHash, f.blocks.length)

theorem hview_setExecNone (fns : List BinaryFunctionModel) (i : Nat) :
    ((fns.set i { fns.getD i default with execCount := none }).map hview)
      = fns.map hview := by
  induction fns generalizing i with
  | nil => rfl
  | cons f t ih =>
    cases i with
    | zero => rfl
    | succ n =>
      simp only [List.getD_cons_succ, List.map_cons, List.set_cons_succ]
      rw [ih n]

theorem hview_getFuncD_congr (bc bc' : BinaryContextModel)
    (h : bc.functions.map hview = bc'.functions.map hview) (i : Nat) :
    hview (getFuncD bc i) = hview (getFuncD bc' i) := by
  have hl : bc.functions.length = bc'.functions.length := by
    have := congrArg List.length h
    simpa using this
  unfold getFuncD
  by_cases hs : i < bc.functions.length
  · have := congrArg (fun l => l.getD i (hview default)) h
    simpa [List.getD_map] using this
  · rw [List.getD_eq_default _ _ (by omega), List.getD_eq_default _ _ (by omega)]

theorem profileMatches_hview (opts : Opts) (ybf : BinaryFunctionProfile)
    (f f' : BinaryFunctionModel) (h : hview f = hview f') :
    profileMatches opts ybf f = profileMatches opts ybf f' := by
  unfold hview at h
  simp only [Prod.mk.injEq] at h
  unfold profileMatches
  rw [h.1, h.2]

theorem stage2Step_hview (opts : Opts) (st : MatchState)
    (p : (Nat × BinaryFunctionProfile) × Option Nat) :
    (stage2Step opts st p).bc.functions.map hview = st.bc.functions.map hview := by
  unfold stage2Step
  split
  · rfl
  · dsimp only
    rw [apply_ite (fun m : MatchState => List.map hview m.bc.functions)]
    dsimp only [matchProfileToFunction]
    rw [ite_self]
    dsimp only [setFunc, getFuncD]
    exact hview_setExecNone st.bc.functions _

theorem stage2Step_used_len (opts : Opts) (st : MatchState)
    (p : (Nat × BinaryFunctionProfile) × Option Nat) :
    (stage2Step opts st p).rs.used.length = st.rs.used.length := by
  unfold stage2Step
  split
  · rfl
  · dsimp only
    rw [apply_ite (fun m : MatchState => m.rs.used.length)]
    dsimp only [matchProfileToFunction]
    rw [List.length_set, ite_self]

theorem usedGetD_set_true (l : List Bool) (i j : Nat)
    (h : l.getD i false = true) : (l.set j true).getD i false = true := by
  rw [getD_set_split]
  split
  · rfl
  · exact h

theorem stage2Step_used_mono (opts : Opts) (st : MatchState)
    (p : (Nat × BinaryFunctionProfile) × Option Nat) (i : Nat)
    (h : st.rs.used.getD i false = true) :
    (stage2Step opts st p).rs.used.getD i false = true := by
  unfold stage2Step
  split
  · exact h
  · dsimp only
    rw [apply_ite (fun m : MatchState => m.rs.used.getD i false)]
    dsimp only [matchProfileToFunction]
    rw [usedGetD_set_true st.rs.used i _ h, h, ite_self]

theorem stage2_used_mono (opts : Opts) :
    ∀ (l : List ((Nat × BinaryFunctionProfile) × Option Nat)) (st : MatchState)
      (i : Nat), st.rs.used.getD i false = true →
      (stage2 opts st l).rs.used.getD i false = true := by
  intro l
  induction l with
  | nil => intro st i h; exact h
  | cons p t ih =>
    intro st i h
    exact ih (stage2Step opts st p) i (stage2Step_used_mono opts st p i h)

/-- The state after the exact-name stage clears a paired function's
preliminary execution count (setExecutionCount(COUNT_NO_PROFILE)). -/
def clearExecAt (st : MatchState) (fid : Nat) : MatchState :=
  { st with bc := setFunc st.bc fid { getFuncD st.bc fid with execCount := none } }

/-- The exact-name step on a name-paired record whose profileMatches check
passes: the record is claimed through matchProfileToFunction (with the
preliminary count cleared first) and MatchedWithExactName is bumped. -/
theorem stage2Step_claims (opts : Opts) (st : MatchState) (i : Nat)
    (ybf : BinaryFunctionProfile) (fid : Nat)
    (hmatch : profileMatches opts ybf (getFuncD st.bc fid) = true) :
    stage2Step opts st ((i, ybf), some fid)
      = { matchProfileToFunction (clearExecAt st fid) i ybf fid with
          matchedWithExactName := st.matchedWithExactName + 1 } := by
  have hcl : profileMatches opts ybf
      (getFuncD (setFunc st.bc fid { getFuncD st.bc fid with execCount := none }) fid)
        = true := by
    unfold getFuncD setFunc
    dsimp only
    rw [getD_set_split]
    split
    · exact hmatch
    · exact hmatch
  unfold stage2Step
  dsimp only
  rw [if_pos hcl]
  rfl

theorem stage2_claims (opts : Opts) :
    ∀ (l : List ((Nat × BinaryFunctionProfile) × Option Nat)) (st : MatchState)
      (i : Nat) (ybf : BinaryFunctionProfile) (fid : Nat),
      ((i, ybf), some fid) ∈ l → i < st.rs.used.length →
      profileMatches opts ybf (getFuncD st.bc fid) = true →
      (stage2 opts st l).rs.used.getD i false = true := by
  intro l
  induction l with
  | nil => intro st i ybf fid hm; cases hm
  | cons p t ih =>
    intro st i ybf fid hm hlen hmatch
    rcases List.mem_cons.mp hm with rfl | hmt
    · show (stage2 opts (stage2Step opts st ((i, ybf), some fid)) t).rs.used.getD i false = true
      refine stage2_used_mono opts t _ i ?_
      rw [stage2Step_claims opts st i ybf fid hmatch]
      dsimp only [matchProfileToFunction]
      rw [getD_set_split]
      rw [if_pos ⟨rfl, by simpa using hlen⟩]
    · show (stage2 opts (stage2Step opts st p) t).rs.used.getD i false = true
      refine ih (stage2Step opts st p) i ybf fid hmt ?_ ?_
      · rw [stage2Step_used_len]
        exact hlen
      · rw [profileMatches_hview opts ybf _ _
          (hview_getFuncD_congr _ _ (stage2Step_hview opts st p) fid)]
        exact hmatch

theorem stage3Step_skip (st : MatchState) (hashMap : List (Nat × Nat))
    (i : Nat) (ybf : BinaryFunctionProfile)
    (h : st.rs.used.getD i false = true) :
    stage3Step st hashMap (i, ybf) = st := by
  unfold stage3Step
  dsimp only
  rw [h]
  simp

/-- C6: a profile record paired by name with a binary function (non-null
ProfileBFs slot) whose hashes match (or block counts under
profile-ignore-hash) is claimed in stage S2 — the step claims it through
matchProfileToFunction after clearing the preliminary count and increments
MatchedWithExactName, and after the whole stage the record's Used flag
holds — and is therefore skipped by the hash-only stage S3 even when its
hash also appears in the Hash → BinaryFunction map built for S3. -/
theorem c6_stage_order (opts : Opts) (fs : List BinaryFunctionProfile)
    (pbfs : List (Option Nat)) (st0 : MatchState) (i fid g : Nat)
    (hashMap : List (Nat × Nat))
    (hlen : pbfs.length = fs.length)
    (hi : i < fs.length)
    (hiu : i < st0.rs.used.length)
    (hslot : pbfs.getD i none = some fid)
    (hmatch : profileMatches opts (fs.getD i default) (getFuncD st0.bc fid) = true)
    (hmap : hashMap.lookup (fs.getD i default).hash = some g) :
    ((stage2 opts st0 (fs.enum.zip pbfs)).rs.used.getD i false = true)
    ∧ (∀ st' : MatchState,
        profileMatches opts (fs.getD i default) (getFuncD st'.bc fid) = true →
        stage2Step opts st' ((i, fs.getD i default), some fid)
          = { matchProfileToFunction (clearExecAt st' fid) i (fs.getD i default) fid with
              matchedWithExactName := st'.matchedWithExactName + 1 })
    ∧ (∀ st' : MatchState, st'.rs.used.getD i false = true →
        stage3Step st' hashMap (i, fs.getD i default) = st') := by
  refine ⟨?_, fun st' h => stage2Step_claims opts st' i (fs.getD i default) fid h,
    fun st' h => stage3Step_skip st' hashMap i (fs.getD i default) h⟩
  have hpl : i < pbfs.length := by omega
  have hzl : i < (fs.enum.zip pbfs).length := by
    rw [List.length_zip, List.enum_length]
    omega
  have helem : ((i, fs.getD i default), some fid) ∈ fs.enum.zip pbfs := by
    have he1 : i < fs.enum.length := by rw [List.enum_length]; omega
    have h1 : (fs.enum.zip pbfs)[i] = (fs.enum[i], pbfs[i]) := List.getElem_zip
    have h2 : fs.enum[i] = (i, fs[i]) :=
      List.getElem_enum fs i (by rw [List.enum_length]; omega)
    have h3 : fs[i] = fs.getD i default := by
      rw [List.getD_eq_getElem?_getD, List.getElem?_eq_getElem hi]
      rfl
    have h4 : pbfs[i] = some fid := by
      rw [List.getD_eq_getElem?_getD, List.getElem?_eq_getElem hpl] at hslot
      simpa using hslot
    have := List.getElem_mem hzl
    rw [h1, h2, h3, h4] at this
    exact this
  exact stage2_claims opts (fs.enum.zip pbfs) st0 i (fs.getD i default) fid
    helem hiu hmatch

def witBFC6 : BinaryFunctionModel :=
  ⟨["f"], "f", [], [], [], 7, 7, none, 0, [], none, false⟩

def witBCC6 : BinaryContextModel := ⟨[witBFC6], [("f", 0)], [], 0, 0⟩

def witYbfC6 : BinaryFunctionProfile := ⟨1, "f", 7, 0, 5, []⟩

def witMS : MatchState :=
  ⟨⟨["f"], [some 0], [], [], [none, none], [], [false], false, false⟩,
    witBCC6, 0, 0, 0, 0⟩

/-- Witness for C6 on a one-record, one-function state whose hashes agree
and whose hash also sits in the S3 map. -/
theorem c6_witness :
    ((stage2 witOpts witMS ([witYbfC6].enum.zip [some 0])).rs.used.getD 0 false = true)
    ∧ (∀ st' : MatchState,
        profileMatches witOpts ([witYbfC6].getD 0 default) (getFuncD st'.bc 0) = true →
        stage2Step witOpts st' ((0, [witYbfC6].getD 0 default), some 0)
          = { matchProfileToFunction (clearExecAt st' 0) 0 ([witYbfC6].getD 0 default) 0 with
              matchedWithExactName := st'.matchedWithExactName + 1 })
    ∧ (∀ st' : MatchState, st'.rs.used.getD 0 false = true →
        stage3Step st' [(7, 0)] (0, [witYbfC6].getD 0 default) = st') :=
  c6_stage_order witOpts [witYbfC6] [some 0] witMS 0 0 0 [(7, 0)]
    rfl (by decide) (by decide) (by decide) (by decide) (by decide)

/-! ## C1: uniqueness of the profile-to-function binding -/

/-- No two distinct slots of the result table hold the same function. -/
def slotInj (ypf : List (Option Nat)) : Prop :=
  ∀ a b g, a ≠ b → ypf.getD a none = some g → ypf.getD b none = some g → False

/-- Every function held by the result table has been recorded in
ProfiledFunctions. -/
def valuesIn (ypf : List (Option Nat)) (pfs : List Nat) : Prop :=
  ∀ a g, ypf.getD a none = some g → g ∈ pfs

/-- The uniqueness invariant carried through the matching stages. -/
def JinvR (rs : ReaderState) : Prop :=
  slotInj rs.yamlProfileToFunction
    ∧ valuesIn rs.yamlProfileToFunction rs.profiledFunctions

def Jinv (st : MatchState) : Prop := JinvR st.rs

theorem not_mem_of_contains_eq_false (l : List Nat) (a : Nat)
    (h : l.contains a = false) : a ∉ l := by
  intro hm
  have ht : l.contains a = true := List.elem_iff.mpr hm
  rw [ht] at h
  exact Bool.noConfusion h

theorem Jinv_match (st : MatchState) (recIdx : Nat) (ybf : BinaryFunctionProfile)
    (fid : Nat) (hJ : Jinv st) (hfree : fid ∉ st.rs.profiledFunctions) :
    Jinv (matchProfileToFunction st recIdx ybf fid) := by
  obtain ⟨hinj, hval⟩ := hJ
  refine ⟨?_, ?_⟩
  · intro a b g hab ha hb
    dsimp only [matchProfileToFunction] at ha hb
    rw [optGetD_set] at ha hb
    by_cases hA : ybf.id = a ∧ ybf.id < st.rs.yamlProfileToFunction.length
    · rw [if_pos hA] at ha
      have hg : fid = g := Option.some.inj ha
      by_cases hB : ybf.id = b ∧ ybf.id < st.rs.yamlProfileToFunction.length
      · exact hab (hA.1.symm.trans hB.1)
      · rw [if_neg hB] at hb
        exact hfree (by rw [hg]; exact hval b g hb)
    · rw [if_neg hA] at ha
      by_cases hB : ybf.id = b ∧ ybf.id < st.rs.yamlProfileToFunction.length
      · rw [if_pos hB] at hb
        have hg : fid = g := Option.some.inj hb
        exact hfree (by rw [hg]; exact hval a g ha)
      · rw [if_neg hB] at hb
        exact hinj a b g hab ha hb
  · intro a g ha
    dsimp only [matchProfileToFunction] at ha ⊢
    rw [optGetD_set] at ha
    by_cases hA : ybf.id = a ∧ ybf.id < st.rs.yamlProfileToFunction.length
    · rw [if_pos hA] at ha
      rw [← Option.some.inj ha]
      exact List.mem_cons_self _ _
    · rw [if_neg hA] at ha
      exact List.mem_cons_of_mem _ (hval a g ha)

theorem stage2Step_pfs (opts : Opts) (st : MatchState)
    (p : (Nat × BinaryFunctionProfile) × Option Nat) (g : Nat)
    (hg : g ∈ (stage2Step opts st p).rs.profiledFunctions) :
    g ∈ st.rs.profiledFunctions ∨ p.2 = some g := by
  obtain ⟨⟨i, ybf⟩, ob⟩ := p
  cases ob with
  | none => exact Or.inl hg
  | some fid =>
    dsimp only [stage2Step] at hg
    split at hg
    · dsimp only [matchProfileToFunction] at hg
      rcases List.mem_cons.mp hg with h | h
      · exact Or.inr (by rw [h])
      · exact Or.inl h
    · exact Or.inl hg

theorem Jinv_stage2Step (opts : Opts) (st : MatchState)
    (p : (Nat × BinaryFunctionProfile) × Option Nat) (hJ : Jinv st)
    (hfree : ∀ g, p.2 = some g → g ∉ st.rs.profiledFunctions) :
    Jinv (stage2Step opts st p) := by
  obtain ⟨⟨i, ybf⟩, ob⟩ := p
  cases ob with
  | none => exact hJ
  | some fid =>
    dsimp only [stage2Step]
    split
    · exact Jinv_match
        { st with bc := setFunc st.bc fid { getFuncD st.bc fid with execCount := none } }
        i ybf fid hJ (hfree fid rfl)
    · exact hJ

theorem Jinv_stage2Aux (opts : Opts) :
    ∀ (l : List ((Nat × BinaryFunctionProfile) × Option Nat)) (st : MatchState),
      Jinv st → (l.filterMap (fun q => q.2)).Nodup →
      (∀ p ∈ l, ∀ g, p.2 = some g → g ∉ st.rs.profiledFunctions) →
      Jinv (stage2 opts st l)
  | [], st, hJ, _, _ => hJ
  | x :: t, st, hJ, hnd, hfree => by
    have hstep : Jinv (stage2Step opts st x) :=
      Jinv_stage2Step opts st x hJ (hfree x (List.mem_cons_self x t))
    rcases hx2 : x.2 with _ | g0
    · simp only [List.filterMap_cons, hx2] at hnd
      have hrec : ∀ p ∈ t, ∀ g, p.2 = some g →
          g ∉ (stage2Step opts st x).rs.profiledFunctions := by
        intro p hp g hg hmem
        rcases stage2Step_pfs opts st x g hmem with h | h
        · exact hfree p (List.mem_cons_of_mem x hp) g hg h
        · rw [hx2] at h; exact Option.noConfusion h
      exact Jinv_stage2Aux opts t (stage2Step opts st x) hstep hnd hrec
    · simp only [List.filterMap_cons, hx2] at hnd
      obtain ⟨hnotin, hndt⟩ := List.nodup_cons.mp hnd
      have hrec : ∀ p ∈ t, ∀ g, p.2 = some g →
          g ∉ (stage2Step opts st x).rs.profiledFunctions := by
        intro p hp g hg hmem
        rcases stage2Step_pfs opts st x g hmem with h | h
        · exact hfree p (List.mem_cons_of_mem x hp) g hg h
        · rw [hx2] at h
          have hgg : g = g0 := (Option.some.inj h).symm
          exact hnotin (hgg ▸ List.mem_filterMap.mpr ⟨p, hp, hg⟩)
      exact Jinv_stage2Aux opts t (stage2Step opts st x) hstep hndt hrec

theorem Jinv_stage3Step (st : MatchState) (hashMap : List (Nat × Nat))
    (p : Nat × BinaryFunctionProfile) (hJ : Jinv st) :
    Jinv (stage3Step st hashMap p) := by
  unfold stage3Step
  split
  · exact hJ
  · split
    · next fid heq =>
      split
      · exact hJ
      · next hc =>
        exact Jinv_match st p.1 p.2 fid hJ (fun hm => hc (List.elem_iff.mpr hm))
    · exact hJ

theorem Jinv_stage3 (opts : Opts) (st : MatchState) (fs : List BinaryFunctionProfile)
    (hJ : Jinv st) : Jinv (stage3 opts st fs) := by
  unfold stage3
  split
  · try dsimp only
    exact foldlPreserve _ Jinv (fun s p h => Jinv_stage3Step s _ p h) _ _ hJ
  · exact hJ

theorem stage4FirstMatch_free (opts : Opts) (st : MatchState)
    (ybf : BinaryFunctionProfile) :
    ∀ (l : List Nat) (fid : Nat), stage4FirstMatch opts st ybf l = some fid →
      fid ∉ st.rs.profiledFunctions
  | [], fid, h => by simp [stage4FirstMatch] at h
  | f :: rest, fid, h => by
    simp only [stage4FirstMatch] at h
    split at h
    · next hg =>
      have hf : f = fid := Option.some.inj h
      simp only [Bool.and_eq_true, Bool.not_eq_true'] at hg
      rw [← hf]
      exact not_mem_of_contains_eq_false _ _ hg.1
    · exact stage4FirstMatch_free opts st ybf rest fid h

theorem Jinv_stage4MatchProfile (opts : Opts) (d : BinaryProfile) (fns : List Nat)
    (st : MatchState) (pi0 : Nat) (hJ : Jinv st) :
    Jinv (stage4MatchProfile opts d fns st pi0).1 := by
  unfold stage4MatchProfile
  dsimp only
  split
  · exact hJ
  · split
    · next fid heq =>
      exact Jinv_match st pi0 (d.functions.getD pi0 default) fid hJ
        (stage4FirstMatch_free opts st _ fns fid heq)
    · exact hJ

theorem Jinv_stage4AnyOf (opts : Opts) (d : BinaryProfile) (fns : List Nat) :
    ∀ (l : List Nat) (st : MatchState), Jinv st →
      Jinv (stage4AnyOf opts d fns l st).1
  | [], _, hJ => hJ
  | pi0 :: rest, st, hJ => by
    simp only [stage4AnyOf]
    try dsimp only
    split
    · exact Jinv_stage4MatchProfile opts d fns st pi0 hJ
    · exact Jinv_stage4AnyOf opts d fns rest _
        (Jinv_stage4MatchProfile opts d fns st pi0 hJ)

theorem Jinv_stage4Entry (opts : Opts) (d : BinaryProfile) (st : MatchState)
    (entry : String × List Nat) (hJ : Jinv st) :
    Jinv (stage4Entry opts d st entry) := by
  unfold stage4Entry
  dsimp only
  split
  · exact hJ
  · split
    · next hg =>
      simp only [Bool.and_eq_true, Bool.not_eq_true'] at hg
      exact Jinv_match
        ((stage4AnyOf opts d ((st.rs.ltoCommonNameFunctionMap.lookup entry.1).getD []) entry.2 st).1)
        (entry.2.headD 0)
        (d.functions.getD (entry.2.headD 0) default)
        (((st.rs.ltoCommonNameFunctionMap.lookup entry.1).getD []).headD 0)
        (Jinv_stage4AnyOf opts d _ entry.2 st hJ)
        (not_mem_of_contains_eq_false _ _ hg.2)
    · exact Jinv_stage4AnyOf opts d _ entry.2 st hJ

theorem Jinv_stage4 (opts : Opts) (d : BinaryProfile) (st : MatchState)
    (hJ : Jinv st) : Jinv (stage4 opts d st) := by
  unfold stage4
  exact foldlPreserve _ Jinv (fun s e h => Jinv_stage4Entry opts d s e h) _ _ hJ

theorem Jinv_stage5Step (st : MatchState)
    (p : (Nat × BinaryFunctionProfile) × Option Nat) (hJ : Jinv st) :
    Jinv (stage5Step st p) := by
  obtain ⟨⟨i, ybf⟩, ob⟩ := p
  cases ob with
  | none => exact hJ
  | some fid =>
    dsimp only [stage5Step]
    split
    · next hg =>
      simp only [Bool.and_eq_true, Bool.not_eq_true'] at hg
      exact Jinv_match st i ybf fid hJ (not_mem_of_contains_eq_false _ _ hg.2)
    · exact hJ

theorem Jinv_stage5 (st : MatchState)
    (l : List ((Nat × BinaryFunctionProfile) × Option Nat)) (hJ : Jinv st) :
    Jinv (stage5 st l) := by
  unfold stage5
  exact foldlPreserve _ Jinv (fun s p h => Jinv_stage5Step s p h) _ _ hJ

theorem stage6Best_free (oracles : Oracles) (st : MatchState)
    (ybf : BinaryFunctionProfile) (ydem : String) (bfs : List Nat) :
    ∀ b, stage6Best oracles st ybf ydem bfs = some b →
      b.2 ∉ st.rs.profiledFunctions := by
  unfold stage6Best
  refine foldlPreserve _
    (fun acc : Option (Nat × Nat) => ∀ b, acc = some b → b.2 ∉ st.rs.profiledFunctions)
    ?_ bfs none (fun b h => by cases h)
  intro acc fid hP
  dsimp only
  split
  · exact hP
  · next hc =>
    split
    · exact hP
    · cases acc with
      | none =>
        intro b hb
        injection hb with hb1
        subst hb1
        exact fun hm => hc (List.elem_iff.mpr hm)
      | some best =>
        dsimp only
        split
        · intro b hb
          injection hb with hb1
          subst hb1
          exact fun hm => hc (List.elem_iff.mpr hm)
        · exact hP

theorem Jinv_stage6 (opts : Opts) (oracles : Oracles) (d : BinaryProfile)
    (st0 : MatchState) (hJ : Jinv st0) : Jinv (stage6 opts oracles d st0) := by
  unfold stage6
  dsimp only
  refine foldlPreserve _ Jinv ?_ _ _ hJ
  intro s i hs
  dsimp only
  split
  · exact hs
  · split
    · exact hs
    · next bfs heq =>
      split
      · next best hbest =>
        split
        · exact Jinv_match s i (d.functions.getD i default) best.2 hs
            (stage6Best_free oracles s (d.functions.getD i default)
              ((d.functions.map (fun ybf => oracles.demangleName ybf.name)).getD i "")
              bfs best hbest)
        · exact hs
      · exact hs

theorem parseLoopStep_rs (ctx : ParseCtx) (acc : MatchState × Nat)
    (ybf : BinaryFunctionProfile) : (parseLoopStep ctx acc ybf).1.rs = acc.1.rs := by
  unfold parseLoopStep
  dsimp only
  split
  · rfl
  · split
    · rfl
    · rfl

theorem propagate_rs (opts : Opts) (oracles : Oracles) (d : BinaryProfile)
    (st7 : MatchState) : ((propagate opts oracles d st7).1).rs = st7.rs := by
  have hfold : ∀ ctx : ParseCtx,
      ((d.functions.foldl (parseLoopStep ctx) (st7, 0)).1).rs = st7.rs := by
    intro ctx
    exact foldlPreserve _ (fun acc : MatchState × Nat => acc.1.rs = st7.rs)
      (fun s a h => by
        show (parseLoopStep ctx s a).1.rs = st7.rs
        rw [parseLoopStep_rs]; exact h) _ _ rfl
  unfold propagate
  dsimp only
  split
  · dsimp only
    exact hfold _
  · dsimp only
    exact hfold _

theorem Jinv_applyStages (opts : Opts) (oracles : Oracles) (d : BinaryProfile)
    (st1 : MatchState) (hJ : Jinv st1)
    (hnd : ((d.functions.enum.zip st1.rs.profileBFs).filterMap (fun q => q.2)).Nodup)
    (hfree : ∀ p ∈ d.functions.enum.zip st1.rs.profileBFs, ∀ g, p.2 = some g →
      g ∉ st1.rs.profiledFunctions) :
    Jinv (applyStages opts oracles d st1) := by
  unfold applyStages
  dsimp only
  have h2 : Jinv (stage2 opts st1 (d.functions.enum.zip st1.rs.profileBFs)) :=
    Jinv_stage2Aux opts (d.functions.enum.zip st1.rs.profileBFs) st1 hJ hnd hfree
  have h5 : Jinv (stage5
      (stage4 opts d (stage3 opts
        (stage2 opts st1 (d.functions.enum.zip st1.rs.profileBFs)) d.functions))
      (d.functions.enum.zip
        (stage4 opts d (stage3 opts
          (stage2 opts st1 (d.functions.enum.zip st1.rs.profileBFs)) d.functions)).rs.profileBFs)) :=
    Jinv_stage5 _ _ (Jinv_stage4 opts d _ (Jinv_stage3 opts _ d.functions h2))
  split
  · exact Jinv_stage6 opts oracles d _ h5
  · exact h5

def initMatchState (opts : Opts) (d : BinaryProfile) (rs0 : ReaderState)
    (bc0 : BinaryContextModel) : MatchState :=
  ⟨{ rs0 with yamlProfileToFunction := List.replicate (d.functions.length + 1) none },
    precomputeHashes opts rs0.profileBFs bc0, 0, 0, 0, 0⟩

theorem readProfile_Jinv (opts : Opts) (oracles : Oracles) (d : BinaryProfile)
    (rs0 : ReaderState) (bc0 : BinaryContextModel)
    (hpfs : rs0.profiledFunctions = [])
    (hlen : rs0.profileBFs.length = d.functions.length)
    (hnd : (rs0.profileBFs.filterMap id).Nodup) :
    JinvR (((readProfile opts oracles d rs0 bc0).1).rs) := by
  have hJ1 : Jinv (initMatchState opts d rs0 bc0) := by
    refine ⟨?_, ?_⟩
    · intro a b g hab ha hb
      dsimp only [initMatchState] at ha
      rw [getD_replicate_none] at ha
      exact Option.noConfusion ha
    · intro a g ha
      dsimp only [initMatchState] at ha
      rw [getD_replicate_none] at ha
      exact Option.noConfusion ha
  have hnd1 : ((d.functions.enum.zip rs0.profileBFs).filterMap (fun q => q.2)).Nodup := by
    rw [zip_snd_filterMap d.functions.enum rs0.profileBFs (by rw [List.enum_length, hlen])]
    exact hnd
  have hfree1 : ∀ p ∈ d.functions.enum.zip rs0.profileBFs, ∀ g, p.2 = some g →
      g ∉ rs0.profiledFunctions := by
    intro p hp g hg
    rw [hpfs]
    exact List.not_mem_nil g
  have h6 := Jinv_applyStages opts oracles d (initMatchState opts d rs0 bc0) hJ1 hnd1 hfree1
  unfold readProfile
  dsimp only
  rw [propagate_rs]
  exact h6

theorem foldlCount {α β : Type} (f : β → α → β) (g : β → Nat)
    (hstep : ∀ s a, g (f s a) = g s + 1) :
    ∀ (l : List α) (s : β), g (l.foldl f s) = g s + l.length := by
  intro l
  induction l with
  | nil => intro s; simp
  | cons a t ih => intro s; rw [List.foldl_cons, ih, hstep, List.length_cons]; omega

theorem bnm_profiledFunctions (oracles : Oracles) (d : BinaryProfile)
    (bc : BinaryContextModel) :
    (buildNameMaps oracles d bc).profiledFunctions = [] := by
  unfold buildNameMaps
  dsimp only
  refine foldlPreserve _ (fun rs : ReaderState => rs.profiledFunctions = []) ?_ _ _
    (foldlPreserve _ (fun rs : ReaderState => rs.profiledFunctions = []) ?_ _ _ rfl)
  · intro s p h
    try dsimp only
    split <;> exact h
  · intro s p h
    try dsimp only
    split <;> exact h

theorem bnm_profileBFs_len (oracles : Oracles) (d : BinaryProfile)
    (bc : BinaryContextModel) :
    (buildNameMaps oracles d bc).profileBFs.length = d.functions.length := by
  unfold buildNameMaps
  dsimp only
  refine foldlPreserve _
    (fun rs : ReaderState => rs.profileBFs.length = d.functions.length) ?_ _ _ ?_
  · intro s p h
    try dsimp only
    split <;> exact h
  · refine Eq.trans
      (foldlCount _ (fun rs : ReaderState => rs.profileBFs.length) ?_ _ _) ?_
    · intro s p
      try dsimp only
      split <;> simp
    · simp [emptyReaderState, List.enum_length]

theorem bnm_profileBFs_bound (oracles : Oracles) (d : BinaryProfile)
    (bc : BinaryContextModel)
    (hbcWF : ∀ p ∈ bc.nameToFun, p.2 < bc.functions.length) :
    ∀ ob ∈ (buildNameMaps oracles d bc).profileBFs, ∀ g, ob = some g →
      g < bc.functions.length := by
  unfold buildNameMaps
  dsimp only
  refine foldlPreserve _
    (fun rs : ReaderState => ∀ ob ∈ rs.profileBFs, ∀ g, ob = some g →
      g < bc.functions.length) ?_ _ _
    (foldlPreserve _
      (fun rs : ReaderState => ∀ ob ∈ rs.profileBFs, ∀ g, ob = some g →
        g < bc.functions.length) ?_ _ _ ?_)
  · intro s p h
    try dsimp only
    split <;> exact h
  · intro s p h
    try dsimp only
    split
    all_goals {
      intro ob hob g hg
      rcases List.mem_append.mp hob with hm | hm
      · exact h ob hm g hg
      · have hsing : ob = bc.nameToFun.lookup (cleanProfileName p.2.name) :=
          List.mem_singleton.mp hm
        exact hbcWF _ (lookup_mem _ _ _ (hsing ▸ hg)) }
  · intro ob hob g hg
    simp [emptyReaderState] at hob

theorem preAssign_length : ∀ (l : List (BinaryFunctionProfile × Option Nat))
    (bc : BinaryContextModel), (preliminaryAssign l bc).1.length = l.length
  | [], _ => rfl
  | (ybf, none) :: t, bc => by
    simp only [preliminaryAssign]
    try dsimp only
    simp [preAssign_length t]
  | (ybf, some fid) :: t, bc => by
    simp only [preliminaryAssign]
    try dsimp only
    split
    · simp [preAssign_length t]
    · simp [preAssign_length t]

theorem preAssign_mem : ∀ (l : List (BinaryFunctionProfile × Option Nat))
    (bc : BinaryContextModel),
    (∀ p ∈ l, ∀ g, p.2 = some g → g < bc.functions.length) →
    ∀ fid, fid ∈ (preliminaryAssign l bc).1.filterMap id →
      hasProfileFn (getFuncD bc fid) = false
  | [], bc, _, fid, h => by simp [preliminaryAssign] at h
  | (ybf, none) :: t, bc, hb, fid, h => by
    simp only [preliminaryAssign] at h
    try dsimp only at h
    simp only [List.filterMap_cons] at h
    exact preAssign_mem t bc (fun p hp => hb p (List.mem_cons_of_mem _ hp)) fid h
  | (ybf, some g0) :: t, bc, hb, fid, h => by
    simp only [preliminaryAssign] at h
    try dsimp only at h
    split at h
    · simp only [List.filterMap_cons] at h
      exact preAssign_mem t bc (fun p hp => hb p (List.mem_cons_of_mem _ hp)) fid h
    · next hpf =>
      simp only [List.filterMap_cons] at h
      rcases List.mem_cons.mp h with h1 | h1
      · simp only [Bool.not_eq_true] at hpf
        rw [h1]
        exact hpf
      · by_cases hfg : fid = g0
        · simp only [Bool.not_eq_true] at hpf
          rw [hfg]
          exact hpf
        · have hrec := preAssign_mem t
            (setFunc bc g0 { getFuncD bc g0 with execCount := some ybf.execCount })
            (fun p hp g hg => by
              have hlt := hb p (List.mem_cons_of_mem _ hp) g hg
              simpa [setFunc, List.length_set] using hlt) fid h1
          have heq : getFuncD
              (setFunc bc g0 { getFuncD bc g0 with execCount := some ybf.execCount }) fid
              = getFuncD bc fid := by
            unfold getFuncD setFunc
            dsimp only
            exact getD_set_ne _ _ _ _ _ (fun hcontra => hfg hcontra.symm)
          rw [heq] at hrec
          exact hrec

theorem preAssign_nodup : ∀ (l : List (BinaryFunctionProfile × Option Nat))
    (bc : BinaryContextModel),
    (∀ p ∈ l, ∀ g, p.2 = some g → g < bc.functions.length) →
    ((preliminaryAssign l bc).1.filterMap id).Nodup
  | [], bc, _ => by simp [preliminaryAssign]
  | (ybf, none) :: t, bc, hb => by
    simp only [preliminaryAssign]
    try dsimp only
    simp only [List.filterMap_cons]
    exact preAssign_nodup t bc (fun p hp => hb p (List.mem_cons_of_mem _ hp))
  | (ybf, some g0) :: t, bc, hb => by
    simp only [preliminaryAssign]
    try dsimp only
    split
    · simp only [List.filterMap_cons]
      exact preAssign_nodup t bc (fun p hp => hb p (List.mem_cons_of_mem _ hp))
    · next hpf =>
      simp only [List.filterMap_cons]
      have hb1 : ∀ p ∈ t, ∀ g, p.2 = some g →
          g < (setFunc bc g0 { getFuncD bc g0 with execCount := some ybf.execCount }).functions.length := by
        intro p hp g hg
        have hlt := hb p (List.mem_cons_of_mem _ hp) g hg
        simpa [setFunc, List.length_set] using hlt
      refine List.nodup_cons.mpr ⟨?_, preAssign_nodup t _ hb1⟩
      intro hmem
      have hfalse := preAssign_mem t _ hb1 g0 hmem
      have hlt0 : g0 < bc.functions.length := hb _ (List.mem_cons_self _ _) g0 rfl
      have htrue : hasProfileFn (getFuncD
          (setFunc bc g0 { getFuncD bc g0 with execCount := some ybf.execCount }) g0) = true := by
        unfold getFuncD setFunc hasProfileFn
        dsimp only
        rw [getD_set_self _ _ _ _ hlt0]
        rfl
      rw [hfalse] at htrue
      exact Bool.noConfusion htrue

theorem preprocess_rs_props (oracles : Oracles) (d : BinaryProfile)
    (bc : BinaryContextModel)
    (hbcWF : ∀ p ∈ bc.nameToFun, p.2 < bc.functions.length) :
    ({ buildNameMaps oracles d bc with
        profileBFs := (preliminaryAssign
          (d.functions.zip (buildNameMaps oracles d bc).profileBFs) bc).1 }
      : ReaderState).profiledFunctions = []
    ∧ ({ buildNameMaps oracles d bc with
        profileBFs := (preliminaryAssign
          (d.functions.zip (buildNameMaps oracles d bc).profileBFs) bc).1 }
      : ReaderState).profileBFs.length = d.functions.length
    ∧ (({ buildNameMaps oracles d bc with
        profileBFs := (preliminaryAssign
          (d.functions.zip (buildNameMaps oracles d bc).profileBFs) bc).1 }
      : ReaderState).profileBFs.filterMap id).Nodup := by
  have hb0 : ∀ p ∈ d.functions.zip (buildNameMaps oracles d bc).profileBFs,
      ∀ g, p.2 = some g → g < bc.functions.length := by
    intro p hp g hg
    exact bnm_profileBFs_bound oracles d bc hbcWF p.2 (List.of_mem_zip hp).2 g hg
  refine ⟨bnm_profiledFunctions oracles d bc, ?_, preAssign_nodup _ bc hb0⟩
  show (preliminaryAssign
    (d.functions.zip (buildNameMaps oracles d bc).profileBFs) bc).1.length
    = d.functions.length
  rw [preAssign_length, List.length_zip, bnm_profileBFs_len]
  omega

/-- C1: after readProfile completes on a successful run, no binary
function is the target of two distinct profile records — for any two
distinct records of the document, their YamlProfileToFunction entries are
never the same non-null binary function.  This rests on preprocessing
nulling the ProfileBFs slot of a duplicate and on every post-S2 stage
skipping functions already in ProfiledFunctions. -/
theorem c1_uniqueness (opts : Opts) (oracles : Oracles) (d : BinaryProfile)
    (bc : BinaryContextModel) (st : MatchState) (nu : Nat)
    (hbcWF : ∀ p ∈ bc.nameToFun, p.2 < bc.functions.length)
    (hids : (d.functions.map (fun f => f.id)).Nodup)
    (hrun : runProfileReader opts oracles (ProfileInput.doc d) bc = (none, st, nu))
    (i j : Nat) (hi : i < d.functions.length) (hj : j < d.functions.length)
    (hij : i ≠ j) :
    ¬ ∃ fid,
      st.rs.yamlProfileToFunction.getD (d.functions.getD i default).id none = some fid
      ∧ st.rs.yamlProfileToFunction.getD (d.functions.getD j default).id none = some fid := by
  have hne : (d.functions.getD i default).id ≠ (d.functions.getD j default).id := by
    have hi2 : i < (d.functions.map (fun f => f.id)).length := by
      rw [List.length_map]; exact hi
    have hj2 : j < (d.functions.map (fun f => f.id)).length := by
      rw [List.length_map]; exact hj
    intro he
    apply hij
    rw [List.getD_eq_getElem d.functions default hi,
      List.getD_eq_getElem d.functions default hj] at he
    have he2 : (d.functions.map (fun f => f.id))[i] = (d.functions.map (fun f => f.id))[j] := by
      rw [List.getElem_map, List.getElem_map]
      exact he
    exact (List.Nodup.getElem_inj_iff hids).mp he2
  unfold runProfileReader at hrun
  dsimp only at hrun
  unfold preprocessProfile at hrun
  dsimp only at hrun
  by_cases hv : d.header.version ≠ 1
  · rw [if_pos hv] at hrun
    simp at hrun
  · rw [if_neg hv] at hrun
    by_cases hc : d.header.eventNames.data.contains ',' = true
    · rw [if_pos hc] at hrun
      simp at hrun
    · rw [if_neg hc] at hrun
      dsimp only at hrun
      simp only [Prod.mk.injEq] at hrun
      obtain ⟨-, hst, -⟩ := hrun
      subst hst
      obtain ⟨h1, h2, h3⟩ := preprocess_rs_props oracles d bc hbcWF
      have hJ := readProfile_Jinv opts oracles d
        { buildNameMaps oracles d bc with
          profileBFs := (preliminaryAssign
            (d.functions.zip (buildNameMaps oracles d bc).profileBFs) bc).1 }
        (preliminaryAssign
          (d.functions.zip (buildNameMaps oracles d bc).profileBFs) bc).2
        h1 h2 h3
      rintro ⟨fid, hA, hB⟩
      exact hJ.1 _ _ fid hne hA hB

def witBFA : BinaryFunctionModel :=
  ⟨["a"], "a", [], [], [], 10, 10, none, 0, [], none, false⟩

def witBFB : BinaryFunctionModel :=
  ⟨["b"], "b", [], [], [], 20, 20, none, 0, [], none, false⟩

def witBCC1 : BinaryContextModel :=
  ⟨[witBFA, witBFB], [("a", 0), ("b", 1)], [], 0, 0⟩

def witDocC1 : BinaryProfile :=
  ⟨⟨1, 0, "cycles", HashFunctionKind.stdHash, false⟩,
    [⟨1, "a", 10, 0, 5, []⟩, ⟨2, "b", 20, 0, 6, []⟩]⟩

/-- Witness for C1 on a two-record document matched by exact name against
a two-function context: the two records never share a target. -/
theorem c1_witness :
    ¬ ∃ fid,
      ((runProfileReader witOpts witOracles (ProfileInput.doc witDocC1) witBCC1).2.1).rs.yamlProfileToFunction.getD
        (witDocC1.functions.getD 0 default).id none = some fid
      ∧ ((runProfileReader witOpts witOracles (ProfileInput.doc witDocC1) witBCC1).2.1).rs.yamlProfileToFunction.getD
        (witDocC1.functions.getD 1 default).id none = some fid :=
  c1_uniqueness witOpts witOracles witDocC1 witBCC1
    ((runProfileReader witOpts witOracles (ProfileInput.doc witDocC1) witBCC1).2.1)
    ((runProfileReader witOpts witOracles (ProfileInput.doc witDocC1) witBCC1).2.2)
    (by decide) (by decide) rfl 0 1 (by decide) (by decide) (by decide)

end BoltProfile
